/-
  Verification of the Nelder-Mead simplex optimizer (src/src/nm.h, src/src/nm.cpp).

  Shallow embedding notes:
  * IEEE doubles are idealized as an arbitrary linear ordered field `α`;
    the library routine `sqrt` is threaded through as an explicit function
    parameter `sq : α → α`, since the algorithm only ever feeds it to
    comparisons and never relies on algebraic properties of square roots.
  * The evaluation callback `evalFunc` and the optional constraint callback
    `constrainFunc` are construction-time constants of the C++ class; they are
    threaded as explicit parameters `F` and `C` of every routine.
  * The four scratch members `vr`, `ve`, `vc`, `vm` of the class exist only to
    avoid per-iteration allocation; each is fully rewritten before every read
    inside one iteration, so they are modelled as iteration-local values.
  * `uint32_t` loop counters become `ℕ`; every coordinate loop
    `for (j = 0; j <= size - 1; j++)` is modelled as ranging over
    `List.range size`, which matches the unsigned arithmetic whenever
    `size ≥ 1` (the case the claims quantify over).
  * Vectors become `List α`; reads use `List.getD` (in-bounds accesses, which
    claim C10 is about, make the default irrelevant).
-/
import Mathlib

set_option maxRecDepth 8000
set_option maxHeartbeats 1000000
set_option linter.unusedSectionVars false

namespace NelderMead

/-- Mirror of `struct NelderMeadResults` (nm.h, lines 27-32): the data stored
by the last completed `exec` call. -/
structure Results (α : Type) where
  iterationCount : ℕ
  evalCount : ℕ
  minValues : List α
  min : α

/-- The algorithm state of class `NelderMead` (nm.h, lines 58-89) other than
the stored `lastExecResults`: the construction-time dimension `size`, the four
configuration values with their in-class initializers, the simplex `v`, the
value table `f`, the evaluation counter and the three role indices. -/
structure Core (α : Type) where
  size : ℕ
  configMaxIterations : ℕ
  configReflectionCoefficient : α
  configContractionCoefficient : α
  configExpansionCoefficient : α
  v : List (List α)
  f : List α
  evalCount : ℕ
  vs : ℕ
  vh : ℕ
  vg : ℕ

/-- The full observable state of a `NelderMead` object: the algorithm state
plus the stored result of the last completed `exec` call. -/
structure State (α : Type) where
  core : Core α
  lastExecResults : Results α

variable {α : Type} [LinearOrderedField α]

/-- Read `f[i]` (value-table access). -/
def fGet (f : List α) (i : ℕ) : α := f.getD i 0

/-- Read `v[r][c]` (simplex coordinate access). -/
def rowGet (v : List (List α)) (r c : ℕ) : α := (v.getD r []).getD c 0

/-- The constructor `NelderMead::NelderMead` (nm.cpp, lines 16-35): records the
dimension, sizes the simplex to `size + 1` rows of `size` value-initialized
doubles and the value table to `size + 1` entries, and leaves the
configuration fields at their nm.h defaults (1000, 1.0, 0.5, 2.0).  The POD
fields of `lastExecResults` are modelled as zero-initialized. -/
def construct (inSize : ℕ) : State α :=
  ⟨⟨inSize, 1000, 1, 1/2, 2,
    List.replicate (inSize + 1) (List.replicate inSize 0),
    List.replicate (inSize + 1) 0, 0, 0, 0, 0⟩,
   ⟨0, 0, [], 0⟩⟩

/-- `setMaxIterations` (nm.h, line 52). -/
def setMaxIterations (inValue : ℕ) (s : State α) : State α :=
  ⟨{ s.core with configMaxIterations := inValue }, s.lastExecResults⟩

/-- `setReflectionCoefficient` (nm.h, line 53). -/
def setReflectionCoefficient (inValue : α) (s : State α) : State α :=
  ⟨{ s.core with configReflectionCoefficient := inValue }, s.lastExecResults⟩

/-- `setContractionCoefficient` (nm.h, line 54). -/
def setContractionCoefficient (inValue : α) (s : State α) : State α :=
  ⟨{ s.core with configContractionCoefficient := inValue }, s.lastExecResults⟩

/-- `setExpansionCoefficient` (nm.h, line 55). -/
def setExpansionCoefficient (inValue : α) (s : State α) : State α :=
  ⟨{ s.core with configExpansionCoefficient := inValue }, s.lastExecResults⟩

/-- `getLastExecResults` (nm.h, line 51). -/
def getLastExecResults (s : State α) : Results α := s.lastExecResults

/-- Application of the optional constraint callback to one candidate vector:
`if (constrainFunc) constrainFunc(x);`. -/
def applyC (C : Option (List α → List α)) (x : List α) : List α :=
  match C with
  | none => x
  | some g => g x

/-- `NelderMead::doEvaluate` (nm.h, lines 93-97): increments the evaluation
counter and applies the objective callback. -/
def doEvaluate (F : List α → α) (s : Core α) (x : List α) : α × Core α :=
  (F x, { s with evalCount := s.evalCount + 1 })

/-- `NelderMead::doInitialize` (nm.cpp, lines 42-69): resets the evaluation
counter and the three role indices, computes the regular-simplex offsets
`pn`, `qn`, and rewrites every entry of every simplex row: row 0 is the start
point, row `i ≥ 1` adds `pn` to coordinate `i-1` and `qn` elsewhere. -/
def doInitialize (sq : α → α) (start : List α) (scale : α) (s : Core α) :
    Core α :=
  let n := s.size
  let pn := scale * (sq ((n : α) + 1) - 1 + (n : α)) / ((n : α) * sq 2)
  let qn := scale * (sq ((n : α) + 1) - 1) / ((n : α) * sq 2)
  { s with
    evalCount := 0, vs := 0, vh := 0, vg := 0
    v := (List.range (n + 1)).map (fun i =>
      if i = 0 then
        (List.range n).map (fun j => start.getD j 0)
      else
        (List.range n).map (fun j =>
          if i - 1 = j then pn + start.getD j 0 else qn + start.getD j 0)) }

/-- The first loop of `doIndexes` (nm.cpp, lines 98-105): one linear scan
updating `vs` whenever `f[j] < f[vs]` and `vg` whenever `f[j] > f[vg]`, both
seeded with the pair carried in the state. -/
def minmaxScan (g : ℕ → α) (l : List ℕ) (p : ℕ × ℕ) : ℕ × ℕ :=
  l.foldl
    (fun p j =>
      (if g j < g p.1 then j else p.1,
       if g j > g p.2 then j else p.2)) p

/-- The second loop of `doIndexes` (nm.cpp, lines 107-111): update `vh`
whenever `f[j] > f[vh] && f[j] < f[vg]`, where `G` stands for the fixed
`f[vg]` of the already-determined maximum index. -/
def vhScan (g : ℕ → α) (G : α) (l : List ℕ) (v0 : ℕ) : ℕ :=
  l.foldl (fun vh j => if g j > g vh ∧ g j < G then j else vh) v0

/-- `NelderMead::doIndexes` (nm.cpp, lines 95-112): recompute the role
indices from the value table, seeding the scans with the carried `vs`, `vg`
and seeding `vh` with the freshly computed `vs`.  (The `vh = vs` store on
line 97 is dead — line 106 overwrites it.) -/
def doIndexes (s : Core α) : Core α :=
  let p := minmaxScan (fGet s.f) (List.range (s.size + 1)) (s.vs, s.vg)
  let vh := vhScan (fGet s.f) (fGet s.f p.2) (List.range (s.size + 1)) p.1
  { s with vs := p.1, vh := vh, vg := p.2 }

/-- The centroid loop of `exec` (nm.cpp, lines 151-160): per coordinate `j`,
sum `v[m][j]` over every row `m ≠ vg` and divide by `size`. -/
def centroid (n vg : ℕ) (v : List (List α)) : List α :=
  (List.range n).map (fun j =>
    ((List.range (n + 1)).foldl
      (fun cent m => if m ≠ vg then cent + rowGet v m j else cent) 0) / (n : α))

/-- The coordinate-copy loops `for (j...) v[i][j] = src[j];` writing a
candidate vector into simplex row `i` (rows have length `n`). -/
def writeRow (v : List (List α)) (i : ℕ) (src : List α) (n : ℕ) :
    List (List α) :=
  v.set i ((List.range n).map (fun j => src.getD j 0))

/-- The coordinate-copy acceptance of a candidate vector `src` with value `x`
into the worst slot: `for (j...) v[vg][j] = src[j]; f[vg] = x;` (e.g. nm.cpp,
lines 173-176). -/
def acceptInto (s : Core α) (src : List α) (x : α) : Core α :=
  { s with v := writeRow s.v s.vg src s.size, f := s.f.set s.vg x }

/-- The expansion path of `exec` (nm.cpp, lines 180-201): build `ve`,
constrain it, evaluate it, and accept whichever of `ve`/`vr` scored lower. -/
def expandStep (F : List α → α) (C : Option (List α → List α)) (fr : α)
    (vm vr : List α) (s : Core α) : Core α :=
  let ve := applyC C ((List.range s.size).map (fun j =>
    vm.getD j 0 + s.configExpansionCoefficient * (vr.getD j 0 - vm.getD j 0)))
  let r := doEvaluate F s ve
  if r.1 < fr then acceptInto r.2 ve r.1
  else acceptInto r.2 vr fr

/-- The shrink move proper (nm.cpp, lines 238-244): every row other than `vs`
moves halfway toward row `vs`. -/
def shrinkHalve (s : Core α) : Core α :=
  { s with v := (List.range (s.size + 1)).map (fun row =>
    if row ≠ s.vs then
      (List.range s.size).map (fun j =>
        rowGet s.v s.vs j + (rowGet s.v row j - rowGet s.v s.vs j) / 2)
    else s.v.getD row []) }

/-- The full-table evaluation loop `for (j...) f[j] = doEvaluate(v[j]);`
(nm.cpp, lines 133-135 and 247-249): `size + 1` counted evaluations. -/
def evalAll (F : List α → α) (s : Core α) : Core α :=
  { s with
    f := (List.range (s.size + 1)).map (fun j => F (s.v.getD j []))
    evalCount := s.evalCount + (s.size + 1) }

/-- The post-shrink `constrainFunc(v[vg]); f[vg] = doEvaluate(v[vg]);` pair
(nm.cpp, lines 254-257). -/
def constrainEvalVg (F : List α → α) (C : Option (List α → List α))
    (s : Core α) : Core α :=
  let s := { s with v := s.v.set s.vg (applyC C (s.v.getD s.vg [])) }
  let r := doEvaluate F s (s.v.getD s.vg [])
  { r.2 with f := r.2.f.set r.2.vg r.1 }

/-- The post-shrink `constrainFunc(v[vh]); f[vh] = doEvaluate(v[vh]);` pair
(nm.cpp, lines 258-261). -/
def constrainEvalVh (F : List α → α) (C : Option (List α → List α))
    (s : Core α) : Core α :=
  let s := { s with v := s.v.set s.vh (applyC C (s.v.getD s.vh [])) }
  let r := doEvaluate F s (s.v.getD s.vh [])
  { r.2 with f := r.2.f.set r.2.vh r.1 }

/-- The shrink path of `exec` (nm.cpp, lines 234-261): halve the distance of
every row other than `vs` toward `vs`, re-evaluate all `size + 1` vertices,
recompute the role indices, then constrain and re-evaluate rows `vg` and `vh`
once more. -/
def shrinkStep (F : List α → α) (C : Option (List α → List α)) (s : Core α) :
    Core α :=
  constrainEvalVh F C (constrainEvalVg F C (doIndexes (evalAll F (shrinkHalve s))))

/-- The contraction path of `exec` (nm.cpp, lines 204-263): build the outside
or inside contraction point, constrain and evaluate it; accept it if it beats
`f[vg]`, otherwise shrink.  The second component records whether the shrink
path ran. -/
def contractStep (F : List α → α) (C : Option (List α → List α)) (fr : α)
    (vm vr : List α) (s : Core α) : Core α × Bool :=
  let vc := applyC C
    (if fr < fGet s.f s.vg ∧ fr ≥ fGet s.f s.vh then
      (List.range s.size).map (fun j =>
        vm.getD j 0 + s.configContractionCoefficient * (vr.getD j 0 - vm.getD j 0))
    else
      (List.range s.size).map (fun j =>
        vm.getD j 0 - s.configContractionCoefficient * (vm.getD j 0 - rowGet s.v s.vg j)))
  let r := doEvaluate F s vc
  if r.1 < fGet r.2.f r.2.vg then (acceptInto r.2 vc r.1, false)
  else (shrinkStep F C r.2, true)

/-- The convergence test of `exec` (nm.cpp, lines 270-284): mean of the
`size + 1` stored values, then `s = sqrt(Σ pow(f[j]-favg, 2) / size)`, and the
loop breaks when `s < tolerancee`. -/
def convergedTest (sq : α → α) (tolerancee : α) (s : Core α) : Bool :=
  let n := s.size
  let fsum := (List.range (n + 1)).foldl (fun acc j => acc + fGet s.f j) 0
  let favg := fsum / ((n : α) + 1)
  let s0 := (List.range (n + 1)).foldl
    (fun acc j => acc + (fGet s.f j - favg) ^ 2 / (n : α)) 0
  decide (sq s0 < tolerancee)

/-- One iteration of the `exec` loop body (nm.cpp, lines 144-284), together
with the observable branch record `(a, b, c, shrunk)`:
`a` — the accept-reflection test `fr < f[vh] && fr >= f[vs]` (line 172),
`b` — the expansion test `fr < f[vs]` (line 180),
`c` — the contraction test `fr >= f[vh]` (line 204), each evaluated exactly on
the state the C++ code evaluates it on, and `shrunk` — whether the shrink path
ran.  The Bool paired with the state is the convergence-break decision. -/
def bodyWithFlags (F : List α → α) (C : Option (List α → List α))
    (sq : α → α) (tolerancee : α) (s : Core α) :
    (Core α × Bool) × (Bool × Bool × Bool × Bool) :=
  let s := doIndexes s
  let n := s.size
  let vm := centroid n s.vg s.v
  let vr := applyC C ((List.range n).map (fun j =>
    vm.getD j 0 + s.configReflectionCoefficient * (vm.getD j 0 - rowGet s.v s.vg j)))
  let r0 := doEvaluate F s vr
  let fr := r0.1
  let s := r0.2
  let a : Bool := decide (fr < fGet s.f s.vh ∧ fr ≥ fGet s.f s.vs)
  let s := if fr < fGet s.f s.vh ∧ fr ≥ fGet s.f s.vs then
    acceptInto s vr fr else s
  let b : Bool := decide (fr < fGet s.f s.vs)
  let s := if fr < fGet s.f s.vs then expandStep F C fr vm vr s else s
  let c : Bool := decide (fr ≥ fGet s.f s.vh)
  let r := if fr ≥ fGet s.f s.vh then contractStep F C fr vm vr s
    else (s, false)
  ((r.1, convergedTest sq tolerancee r.1), (a, b, c, r.2))

/-- The state after one iteration of the `exec` loop body. -/
def bodyState (F : List α → α) (C : Option (List α → List α)) (sq : α → α)
    (tolerancee : α) (s : Core α) : Core α :=
  (bodyWithFlags F C sq tolerancee s).1.1

/-- The branch record of one iteration of the `exec` loop body. -/
def iterFlags (F : List α → α) (C : Option (List α → List α)) (sq : α → α)
    (tolerancee : α) (s : Core α) : Bool × Bool × Bool × Bool :=
  (bodyWithFlags F C sq tolerancee s).2

/-- The iteration loop `while (++iterationCount <= configMaxIterations)`
(nm.cpp, lines 143-285), driven by the remaining-iteration fuel.  Returns the
final value of the local `iterationCount`, the final state, and whether the
loop left through the convergence `break`.  When the fuel runs out the C++
counter has been incremented once more before the failing test, hence
`iter + 1`. -/
def execLoop (F : List α → α) (C : Option (List α → List α)) (sq : α → α)
    (tolerancee : α) : ℕ → ℕ → Core α → ℕ × Core α × Bool
  | 0, iter, s => (iter + 1, s, false)
  | fuel + 1, iter, s =>
    let r := bodyWithFlags F C sq tolerancee s
    if r.1.2 then (iter + 1, r.1.1, true)
    else execLoop F C sq tolerancee fuel (iter + 1) r.1.1

/-- The initial constraint pass of `exec` (nm.cpp, lines 126-130). -/
def constrainAll (C : Option (List α → List α)) (s : Core α) : Core α :=
  match C with
  | none => s
  | some g =>
    { s with v := (List.range (s.size + 1)).map (fun j => g (s.v.getD j [])) }

/-- The prologue of `exec` (nm.cpp, lines 122-135): `doInitialize`, the
constraint pass over every vertex, and the initial evaluation pass filling the
value table. -/
def execInitState (F : List α → α) (C : Option (List α → List α))
    (sq : α → α) (start : List α) (scale : α) (s : Core α) : Core α :=
  evalAll F (constrainAll C (doInitialize sq start scale s))

/-- All of `NelderMead::exec` except the final write of `lastExecResults`:
the prologue, the iteration loop, the final `doIndexes`, and the final
re-evaluation at `v[vs]` (nm.cpp, lines 114-291).  Returns the final algorithm
state, the final `iterationCount`, whether the loop converged (left through
`break`), and the value of the final evaluation. -/
def execCore (F : List α → α) (C : Option (List α → List α)) (sq : α → α)
    (start : List α) (tolerancee scale : α) (s : Core α) :
    Core α × ℕ × Bool × α :=
  let s := execInitState F C sq start scale s
  let r := execLoop F C sq tolerancee s.configMaxIterations 0 s
  let s := doIndexes r.2.1
  let r2 := doEvaluate F s (s.v.getD s.vs [])
  (r2.2, r.1, r.2.2, r2.1)

/-- `NelderMead::exec` (nm.cpp, lines 114-298): run the algorithm and store
the run's results (iteration count, evaluation count including the final
re-evaluation, the coordinates of `v[vs]`, and the final minimum value). -/
def exec (F : List α → α) (C : Option (List α → List α)) (sq : α → α)
    (start : List α) (tolerancee scale : α) (s : State α) : State α :=
  let r := execCore F C sq start tolerancee scale s.core
  ⟨r.1,
   { iterationCount := r.2.1, evalCount := r.1.evalCount
     minValues := (List.range r.1.size).map (fun j => rowGet r.1.v r.1.vs j)
     min := r.2.2.2 }⟩

/-- Whether a given `exec` run left its iteration loop through the convergence
`break` (observable: it is the last value of the `s < tolerancee` test). -/
def execBroke (F : List α → α) (C : Option (List α → List α)) (sq : α → α)
    (start : List α) (tolerancee scale : α) (s : State α) : Bool :=
  (execCore F C sq start tolerancee scale s.core).2.2.1

/-- A coordinate-clamping constraint callback: clamp every coordinate into
the interval `[lo, hi]` (the shape of constraint function claim C4
quantifies over, e.g. `myConstraints` in example.cpp). -/
def clampList (lo hi : α) (x : List α) : List α :=
  x.map (fun t => min hi (max lo t))

/-- Well-formedness of the algorithm state: the container shapes established
by the constructor (simplex of `size + 1` rows of length `size`, value table
of length `size + 1`) and the role indices staying within `0..size`.  All
container accesses performed by `exec` index `v` and `f` with either a loop
variable bounded by these ranges or one of `vs`, `vh`, `vg`, so `WF` is the
statement that every such access is in bounds. -/
def WF (s : Core α) : Prop :=
  s.v.length = s.size + 1 ∧ (∀ row ∈ s.v, row.length = s.size) ∧
  s.f.length = s.size + 1 ∧ s.vs ≤ s.size ∧ s.vh ≤ s.size ∧ s.vg ≤ s.size

/-- The value-table synchronization invariant (spec §3): every stored value
`f[i]` is the objective evaluated at the currently stored vertex `v[i]`. -/
def Sync (F : List α → α) (s : Core α) : Prop :=
  ∀ i ≤ s.size, fGet s.f i = F (s.v.getD i [])

/-- Every coordinate of every simplex vertex lies within `[lo, hi]`. -/
def InBox (lo hi : α) (s : Core α) : Prop :=
  ∀ row ∈ s.v, ∀ x ∈ row, lo ≤ x ∧ x ≤ hi

/-- Square-root stand-in for the concrete counterexample runs below.  Those
runs consult the interpretation only at `2` (inside the unused-for-`size = 1`
offset computation, where it cancels whenever it is nonzero) and at `0`
(their value spread), where the identity agrees with the real square root. -/
def idsq : ℚ → ℚ := fun x => x

/-- Constant-zero objective (used by the C1 and C3 concrete runs). -/
def constZeroF : List ℚ → ℚ := fun _ => 0

/-- Objective for the C2 concrete run: the two initial vertices `0` and `1`
tie at value `5`, the reflection point `2` scores `3`, the expansion point
`3` scores `4`. -/
def c2F : List ℚ → ℚ := fun x =>
  if x.getD 0 0 = 0 then 5
  else if x.getD 0 0 = 1 then 5
  else if x.getD 0 0 = 2 then 3
  else if x.getD 0 0 = 3 then 4
  else 0

/-- Objective for the second C3 concrete run: vertex `0` scores `0`, vertex
`1` scores `1`, the reflection point `-1` scores `1/2`, everything else
(in particular the accepted contraction point `-1/2`) scores `0`. -/
def c3F : List ℚ → ℚ := fun x =>
  if x.getD 0 0 = 1 then 1
  else if x.getD 0 0 = -1 then 1/2
  else 0

/-- Concrete size-2 state used to witness the accept-reflection branch:
`doIndexes` yields `vs = 0`, `vh = 2`, `vg = 1`, the centroid is `[1, 0]`,
the reflection point `[-4, 0]`. -/
def w2 : Core ℚ := ⟨2, 1000, 1, 1/2, 2, [[0, 0], [6, 0], [2, 0]], [0, 8, 4], 0, 0, 0, 0⟩

/-- Objective for the `w2` run: `1` at the reflection point, `99` elsewhere,
so the accept-reflection test `f[vs] <= fr < f[vh]` fires. -/
def w2F : List ℚ → ℚ := fun x => if x.getD 0 0 = -4 then 1 else 99

/-- A `State` with scrap values in every non-configuration field, used to
witness that `exec` ignores everything but the dimension and the
configuration. -/
def junkState : State ℚ :=
  ⟨⟨1, 1000, 1, 1/2, 2, [[9, 9], [8]], [7], 42, 5, 6, 7⟩, ⟨11, 12, [13], 14⟩⟩

/-! ### List access helpers -/

theorem getD_rangeMap {β : Type} (g : ℕ → β) (d : β) {n j : ℕ} (h : j < n) :
    ((List.range n).map g).getD j d = g j := by
  rw [List.getD_eq_getElem?_getD, List.getElem?_map, List.getElem?_range h]
  rfl

theorem length_rangeMap {β : Type} (g : ℕ → β) (n : ℕ) :
    ((List.range n).map g).length = n := by simp

theorem rangeMap_getD {β : Type} {l : List β} {n : ℕ} (d : β) (h : l.length = n) :
    (List.range n).map (fun j => l.getD j d) = l := by
  apply List.ext_getElem
  · simp [h]
  · intro i h1 h2
    simp only [List.getElem_map, List.getElem_range]
    rw [List.getD_eq_getElem?_getD, List.getElem?_eq_getElem h2]
    rfl

theorem getD_set {β : Type} (l : List β) (i j : ℕ) (x d : β) :
    (l.set i x).getD j d =
      if i = j ∧ i < l.length then x else l.getD j d := by
  rw [List.getD_eq_getElem?_getD, List.getElem?_set, List.getD_eq_getElem?_getD]
  by_cases hij : i = j
  · subst hij
    by_cases hi : i < l.length <;> simp [hi]
    rw [List.getElem?_eq_none (by omega)]
    rfl
  · simp [hij]

theorem getD_mem {β : Type} {l : List β} {i : ℕ} (d : β) (h : i < l.length) :
    l.getD i d ∈ l := by
  rw [List.getD_eq_getElem?_getD, List.getElem?_eq_getElem h]
  exact List.getElem_mem h

/-! ### The index scans -/

theorem minmaxScan_fst (g : ℕ → α) (l : List ℕ) (p : ℕ × ℕ) :
    ((minmaxScan g l p).1 = p.1 ∨ (minmaxScan g l p).1 ∈ l) ∧
      g (minmaxScan g l p).1 ≤ g p.1 ∧
      ∀ j ∈ l, g (minmaxScan g l p).1 ≤ g j := by
  induction l generalizing p with
  | nil => simp [minmaxScan]
  | cons x xs ih =>
    simp only [minmaxScan, List.foldl_cons] at ih ⊢
    by_cases hx : g x < g p.1
    · rw [if_pos hx]
      rcases ih (x, if g x > g p.2 then x else p.2) with ⟨h1, h2, h3⟩
      refine ⟨?_, le_trans h2 (le_of_lt hx), ?_⟩
      · rcases h1 with h | h
        · exact Or.inr (by simp [h])
        · exact Or.inr (List.mem_cons_of_mem _ h)
      · intro j hj
        rcases List.mem_cons.mp hj with rfl | hj
        · exact h2
        · exact h3 j hj
    · rw [if_neg hx]
      rcases ih (p.1, if g x > g p.2 then x else p.2) with ⟨h1, h2, h3⟩
      refine ⟨?_, h2, ?_⟩
      · rcases h1 with h | h
        · exact Or.inl h
        · exact Or.inr (List.mem_cons_of_mem _ h)
      · intro j hj
        rcases List.mem_cons.mp hj with rfl | hj
        · exact le_trans h2 (not_lt.mp hx)
        · exact h3 j hj

theorem minmaxScan_snd (g : ℕ → α) (l : List ℕ) (p : ℕ × ℕ) :
    ((minmaxScan g l p).2 = p.2 ∨ (minmaxScan g l p).2 ∈ l) ∧
      g p.2 ≤ g (minmaxScan g l p).2 ∧
      ∀ j ∈ l, g j ≤ g (minmaxScan g l p).2 := by
  induction l generalizing p with
  | nil => simp [minmaxScan]
  | cons x xs ih =>
    simp only [minmaxScan, List.foldl_cons] at ih ⊢
    by_cases hx : g x > g p.2
    · rw [if_pos hx]
      rcases ih (if g x < g p.1 then x else p.1, x) with ⟨h1, h2, h3⟩
      refine ⟨?_, le_trans (le_of_lt hx) h2, ?_⟩
      · rcases h1 with h | h
        · exact Or.inr (by simp [h])
        · exact Or.inr (List.mem_cons_of_mem _ h)
      · intro j hj
        rcases List.mem_cons.mp hj with rfl | hj
        · exact h2
        · exact h3 j hj
    · rw [if_neg hx]
      rcases ih (if g x < g p.1 then x else p.1, p.2) with ⟨h1, h2, h3⟩
      refine ⟨?_, h2, ?_⟩
      · rcases h1 with h | h
        · exact Or.inl h
        · exact Or.inr (List.mem_cons_of_mem _ h)
      · intro j hj
        rcases List.mem_cons.mp hj with rfl | hj
        · exact le_trans (not_lt.mp hx) h2
        · exact h3 j hj

theorem vhScan_spec (g : ℕ → α) (G : α) (l : List ℕ) (v0 : ℕ) :
    (vhScan g G l v0 = v0 ∨ (vhScan g G l v0 ∈ l ∧ g (vhScan g G l v0) < G)) ∧
      g v0 ≤ g (vhScan g G l v0) ∧
      ∀ j ∈ l, g j < G → g j ≤ g (vhScan g G l v0) := by
  induction l generalizing v0 with
  | nil => simp [vhScan]
  | cons x xs ih =>
    simp only [vhScan, List.foldl_cons] at ih ⊢
    by_cases hx : g x > g v0 ∧ g x < G
    · rw [if_pos hx]
      rcases ih x with ⟨h1, h2, h3⟩
      refine ⟨?_, le_trans (le_of_lt hx.1) h2, ?_⟩
      · rcases h1 with h | h
        · exact Or.inr ⟨by simp [h], by rw [h]; exact hx.2⟩
        · exact Or.inr ⟨List.mem_cons_of_mem _ h.1, h.2⟩
      · intro j hj hjG
        rcases List.mem_cons.mp hj with rfl | hj
        · exact h2
        · exact h3 j hj hjG
    · rw [if_neg hx]
      rcases ih v0 with ⟨h1, h2, h3⟩
      refine ⟨?_, h2, ?_⟩
      · rcases h1 with h | h
        · exact Or.inl h
        · exact Or.inr ⟨List.mem_cons_of_mem _ h.1, h.2⟩
      · intro j hj hjG
        rcases List.mem_cons.mp hj with rfl | hj
        · rcases not_and_or.mp hx with h | h
          · exact le_trans (not_lt.mp h) h2
          · exact absurd hjG h
        · exact h3 j hj hjG

/-! ### Properties of `doIndexes` -/

theorem doIndexes_only_indices (s : Core α) :
    (doIndexes s).size = s.size ∧ (doIndexes s).f = s.f ∧
      (doIndexes s).v = s.v ∧ (doIndexes s).evalCount = s.evalCount ∧
      (doIndexes s).configMaxIterations = s.configMaxIterations ∧
      (doIndexes s).configReflectionCoefficient = s.configReflectionCoefficient ∧
      (doIndexes s).configContractionCoefficient = s.configContractionCoefficient ∧
      (doIndexes s).configExpansionCoefficient = s.configExpansionCoefficient :=
  ⟨rfl, rfl, rfl, rfl, rfl, rfl, rfl, rfl⟩

theorem doIndexes_min (s : Core α) {j : ℕ} (hj : j ≤ s.size) :
    fGet s.f (doIndexes s).vs ≤ fGet s.f j :=
  (minmaxScan_fst (fGet s.f) (List.range (s.size + 1)) (s.vs, s.vg)).2.2 j
    (List.mem_range.mpr (by omega))

theorem doIndexes_max (s : Core α) {j : ℕ} (hj : j ≤ s.size) :
    fGet s.f j ≤ fGet s.f (doIndexes s).vg :=
  (minmaxScan_snd (fGet s.f) (List.range (s.size + 1)) (s.vs, s.vg)).2.2 j
    (List.mem_range.mpr (by omega))

theorem doIndexes_vs_le (s : Core α) (h : s.vs ≤ s.size) :
    (doIndexes s).vs ≤ s.size := by
  show (minmaxScan (fGet s.f) (List.range (s.size + 1)) (s.vs, s.vg)).1 ≤ s.size
  rcases (minmaxScan_fst (fGet s.f) (List.range (s.size + 1)) (s.vs, s.vg)).1
    with h1 | h1
  · rw [h1]
    exact h
  · have := List.mem_range.mp h1
    omega

theorem doIndexes_vg_le (s : Core α) (h : s.vg ≤ s.size) :
    (doIndexes s).vg ≤ s.size := by
  show (minmaxScan (fGet s.f) (List.range (s.size + 1)) (s.vs, s.vg)).2 ≤ s.size
  rcases (minmaxScan_snd (fGet s.f) (List.range (s.size + 1)) (s.vs, s.vg)).1
    with h1 | h1
  · rw [h1]
    exact h
  · have := List.mem_range.mp h1
    omega

theorem doIndexes_vh_cases (s : Core α) :
    (doIndexes s).vh = (doIndexes s).vs ∨
      fGet s.f (doIndexes s).vh < fGet s.f (doIndexes s).vg := by
  rcases (vhScan_spec (fGet s.f)
      (fGet s.f (minmaxScan (fGet s.f) (List.range (s.size + 1)) (s.vs, s.vg)).2)
      (List.range (s.size + 1))
      (minmaxScan (fGet s.f) (List.range (s.size + 1)) (s.vs, s.vg)).1).1
    with h | h
  · exact Or.inl h
  · exact Or.inr h.2

theorem doIndexes_vh_le (s : Core α) (h : s.vs ≤ s.size) :
    (doIndexes s).vh ≤ s.size := by
  show vhScan (fGet s.f)
    (fGet s.f (minmaxScan (fGet s.f) (List.range (s.size + 1)) (s.vs, s.vg)).2)
    (List.range (s.size + 1))
    (minmaxScan (fGet s.f) (List.range (s.size + 1)) (s.vs, s.vg)).1 ≤ s.size
  rcases (vhScan_spec (fGet s.f)
      (fGet s.f (minmaxScan (fGet s.f) (List.range (s.size + 1)) (s.vs, s.vg)).2)
      (List.range (s.size + 1))
      (minmaxScan (fGet s.f) (List.range (s.size + 1)) (s.vs, s.vg)).1).1
    with h1 | h1
  · rw [h1]
    exact doIndexes_vs_le s h
  · have := List.mem_range.mp h1.1
    omega

theorem doIndexes_vs_ge (s : Core α) :
    fGet s.f (doIndexes s).vs ≤ fGet s.f (doIndexes s).vh :=
  (vhScan_spec (fGet s.f)
    (fGet s.f (minmaxScan (fGet s.f) (List.range (s.size + 1)) (s.vs, s.vg)).2)
    (List.range (s.size + 1))
    (minmaxScan (fGet s.f) (List.range (s.size + 1)) (s.vs, s.vg)).1).2.1

theorem doIndexes_vh_max (s : Core α) {j : ℕ} (hj : j ≤ s.size)
    (h : fGet s.f j < fGet s.f (doIndexes s).vg) :
    fGet s.f j ≤ fGet s.f (doIndexes s).vh :=
  (vhScan_spec (fGet s.f)
    (fGet s.f (minmaxScan (fGet s.f) (List.range (s.size + 1)) (s.vs, s.vg)).2)
    (List.range (s.size + 1))
    (minmaxScan (fGet s.f) (List.range (s.size + 1)) (s.vs, s.vg)).1).2.2 j
    (List.mem_range.mpr (by omega)) h

/-! ### Well-formedness preservation -/

theorem doIndexes_WF {s : Core α} (h : WF s) : WF (doIndexes s) :=
  ⟨h.1, h.2.1, h.2.2.1, doIndexes_vs_le s h.2.2.2.1,
   doIndexes_vh_le s h.2.2.2.1, doIndexes_vg_le s h.2.2.2.2.2⟩

theorem acceptInto_WF {s : Core α} (h : WF s) (src : List α) (x : α) :
    WF (acceptInto s src x) := by
  obtain ⟨h1, h2, h3, h4, h5, h6⟩ := h
  refine ⟨by simpa [acceptInto, writeRow] using h1, ?_,
    by simpa [acceptInto] using h3, h4, h5, h6⟩
  intro row hrow
  rcases List.mem_or_eq_of_mem_set hrow with hr | hr
  · exact h2 row hr
  · rw [hr]
    exact length_rangeMap _ _

theorem doEvaluate_WF (F : List α → α) (x : List α) {s : Core α} (h : WF s) :
    WF (doEvaluate F s x).2 := h

theorem iteCore_WF {P : Prop} [Decidable P] {s t : Core α} (hs : WF s)
    (ht : WF t) : WF (if P then s else t) := by
  split <;> assumption

theorem itePair_WF {P : Prop} [Decidable P] {x y : Core α × Bool}
    (hx : WF x.1) (hy : WF y.1) : WF ((if P then x else y).1) := by
  split <;> assumption

theorem expandStep_WF (F : List α → α) (C : Option (List α → List α))
    (fr : α) (vm vr : List α) {s : Core α} (h : WF s) :
    WF (expandStep F C fr vm vr s) := by
  unfold expandStep
  dsimp only
  exact iteCore_WF (acceptInto_WF (doEvaluate_WF F _ h) _ _)
    (acceptInto_WF (doEvaluate_WF F _ h) _ _)

theorem shrinkHalve_WF {s : Core α} (h : WF s) : WF (shrinkHalve s) := by
  obtain ⟨h1, h2, h3, h4, h5, h6⟩ := h
  refine ⟨length_rangeMap _ _, ?_, h3, h4, h5, h6⟩
  intro row hrow
  rcases List.mem_map.mp hrow with ⟨i, hi, hrow⟩
  rw [← hrow]
  split
  · exact length_rangeMap _ _
  · exact h2 _ (getD_mem _ (by rw [h1]; exact List.mem_range.mp hi))

theorem evalAll_WF (F : List α → α) {s : Core α} (h : WF s) :
    WF (evalAll F s) :=
  ⟨h.1, h.2.1, length_rangeMap _ _, h.2.2.2.1, h.2.2.2.2.1, h.2.2.2.2.2⟩

theorem constrainEvalVg_WF (F : List α → α) (C : Option (List α → List α))
    (hC : ∀ x, (applyC C x).length = x.length) {s : Core α} (h : WF s) :
    WF (constrainEvalVg F C s) := by
  obtain ⟨h1, h2, h3, h4, h5, h6⟩ := h
  unfold constrainEvalVg
  dsimp only [doEvaluate]
  refine ⟨by simpa using h1, ?_, by simpa using h3, h4, h5, h6⟩
  intro row hrow
  rcases List.mem_or_eq_of_mem_set hrow with hr | hr
  · exact h2 row hr
  · rw [hr, hC]
    exact h2 _ (getD_mem _ (by omega))

theorem constrainEvalVh_WF (F : List α → α) (C : Option (List α → List α))
    (hC : ∀ x, (applyC C x).length = x.length) {s : Core α} (h : WF s) :
    WF (constrainEvalVh F C s) := by
  obtain ⟨h1, h2, h3, h4, h5, h6⟩ := h
  unfold constrainEvalVh
  dsimp only [doEvaluate]
  refine ⟨by simpa using h1, ?_, by simpa using h3, h4, h5, h6⟩
  intro row hrow
  rcases List.mem_or_eq_of_mem_set hrow with hr | hr
  · exact h2 row hr
  · rw [hr, hC]
    exact h2 _ (getD_mem _ (by omega))

theorem shrinkStep_WF (F : List α → α) (C : Option (List α → List α))
    (hC : ∀ x, (applyC C x).length = x.length) {s : Core α} (h : WF s) :
    WF (shrinkStep F C s) :=
  constrainEvalVh_WF F C hC (constrainEvalVg_WF F C hC
    (doIndexes_WF (evalAll_WF F (shrinkHalve_WF h))))

theorem contractStep_WF (F : List α → α) (C : Option (List α → List α))
    (hC : ∀ x, (applyC C x).length = x.length) (fr : α) (vm vr : List α)
    {s : Core α} (h : WF s) : WF (contractStep F C fr vm vr s).1 := by
  unfold contractStep
  dsimp only
  exact itePair_WF (acceptInto_WF (doEvaluate_WF F _ h) _ _)
    (shrinkStep_WF F C hC (doEvaluate_WF F _ h))

theorem bodyState_WF (F : List α → α) (C : Option (List α → List α))
    (sq : α → α) (tolerancee : α)
    (hC : ∀ x, (applyC C x).length = x.length) {s : Core α} (h : WF s) :
    WF (bodyState F C sq tolerancee s) := by
  have hIdx : WF (doIndexes s) := doIndexes_WF h
  have h2 : ∀ x : List α, WF (doEvaluate F (doIndexes s) x).2 := fun _ => hIdx
  unfold bodyState bodyWithFlags
  dsimp only
  exact itePair_WF
    (contractStep_WF F C hC _ _ _
      (iteCore_WF
        (expandStep_WF F C _ _ _
          (iteCore_WF (acceptInto_WF (h2 _) _ _) (h2 _)))
        (iteCore_WF (acceptInto_WF (h2 _) _ _) (h2 _))))
    (iteCore_WF
      (expandStep_WF F C _ _ _
        (iteCore_WF (acceptInto_WF (h2 _) _ _) (h2 _)))
      (iteCore_WF (acceptInto_WF (h2 _) _ _) (h2 _)))

/-! ### The prologue of `exec` -/

theorem doInitialize_rows (sq : α → α) (start : List α) (scale : α)
    (s : Core α) :
    (doInitialize sq start scale s).v.length = s.size + 1 ∧
      ∀ row ∈ (doInitialize sq start scale s).v, row.length = s.size := by
  refine ⟨length_rangeMap _ _, ?_⟩
  intro row hrow
  rcases List.mem_map.mp hrow with ⟨i, _, hrow⟩
  rw [← hrow]
  split <;> exact length_rangeMap _ _

theorem constrainAll_only_v (C : Option (List α → List α)) (s : Core α) :
    (constrainAll C s).size = s.size ∧
      (constrainAll C s).configMaxIterations = s.configMaxIterations ∧
      (constrainAll C s).f = s.f ∧
      (constrainAll C s).evalCount = s.evalCount ∧
      (constrainAll C s).vs = s.vs ∧
      (constrainAll C s).vh = s.vh ∧
      (constrainAll C s).vg = s.vg := by
  cases C <;> exact ⟨rfl, rfl, rfl, rfl, rfl, rfl, rfl⟩

theorem constrainAll_rows (C : Option (List α → List α))
    (hC : ∀ x, (applyC C x).length = x.length) {s : Core α}
    (hv : s.v.length = s.size + 1)
    (hrows : ∀ row ∈ s.v, row.length = s.size) :
    (constrainAll C s).v.length = s.size + 1 ∧
      ∀ row ∈ (constrainAll C s).v, row.length = s.size := by
  cases C with
  | none => exact ⟨hv, hrows⟩
  | some g =>
    refine ⟨length_rangeMap _ _, ?_⟩
    intro row hrow
    rcases List.mem_map.mp hrow with ⟨i, hi, hrow⟩
    rw [← hrow,
      show (g (s.v.getD i [])).length = (s.v.getD i []).length from hC _]
    exact hrows _ (getD_mem _ (by rw [hv]; exact List.mem_range.mp hi))

theorem execInitState_WF (F : List α → α) (C : Option (List α → List α))
    (sq : α → α) (start : List α) (scale : α) (s : Core α)
    (hC : ∀ x, (applyC C x).length = x.length) :
    WF (execInitState F C sq start scale s) := by
  obtain ⟨hsz, -, -, -, hvs, hvh, hvg⟩ :=
    constrainAll_only_v C (doInitialize sq start scale s)
  obtain ⟨hv, hrows⟩ := constrainAll_rows C hC
    (doInitialize_rows sq start scale s).1 (doInitialize_rows sq start scale s).2
  show WF (evalAll F (constrainAll C (doInitialize sq start scale s)))
  unfold evalAll
  refine ⟨?_, ?_, ?_, ?_, ?_, ?_⟩ <;> dsimp only
  · rw [hsz]
    exact hv
  · intro row hrow
    rw [hsz]
    exact hrows row hrow
  · exact length_rangeMap _ _
  · rw [hvs, hsz]
    exact Nat.zero_le _
  · rw [hvh, hsz]
    exact Nat.zero_le _
  · rw [hvg, hsz]
    exact Nat.zero_le _

theorem execInitState_fields (F : List α → α) (C : Option (List α → List α))
    (sq : α → α) (start : List α) (scale : α) (s : Core α) :
    (execInitState F C sq start scale s).size = s.size ∧
      (execInitState F C sq start scale s).configMaxIterations =
        s.configMaxIterations ∧
      (execInitState F C sq start scale s).evalCount = s.size + 1 := by
  cases C with
  | none => exact ⟨rfl, rfl, by show 0 + (s.size + 1) = s.size + 1; omega⟩
  | some g => exact ⟨rfl, rfl, by show 0 + (s.size + 1) = s.size + 1; omega⟩

/-! ### The iteration loop -/

theorem execLoop_preserve (F : List α → α) (C : Option (List α → List α))
    (sq : α → α) (tolerancee : α) (P : Core α → Prop)
    (hbody : ∀ t, P t → P (bodyState F C sq tolerancee t)) :
    ∀ (fuel iter : ℕ) (s : Core α), P s →
      P (execLoop F C sq tolerancee fuel iter s).2.1 := by
  intro fuel
  induction fuel with
  | zero => intro iter s h; exact h
  | succ n ih =>
    intro iter s h
    unfold execLoop
    dsimp only
    split
    · exact hbody s h
    · exact ih _ _ (hbody s h)

theorem execLoop_count (F : List α → α) (C : Option (List α → List α))
    (sq : α → α) (tolerancee : α) :
    ∀ (fuel iter : ℕ) (s : Core α),
      ((execLoop F C sq tolerancee fuel iter s).2.2 = false →
        (execLoop F C sq tolerancee fuel iter s).1 = iter + fuel + 1) ∧
      ((execLoop F C sq tolerancee fuel iter s).2.2 = true →
        iter + 1 ≤ (execLoop F C sq tolerancee fuel iter s).1 ∧
          (execLoop F C sq tolerancee fuel iter s).1 ≤ iter + fuel) := by
  intro fuel
  induction fuel with
  | zero =>
    intro iter s
    refine ⟨fun _ => rfl, fun h => ?_⟩
    exact absurd h (by simp [execLoop])
  | succ n ih =>
    intro iter s
    unfold execLoop
    dsimp only
    split
    · exact ⟨fun h => absurd h (by simp), fun _ => ⟨le_refl _, by omega⟩⟩
    · refine ⟨fun h => ?_, fun h => ?_⟩
      · rw [(ih (iter + 1) _).1 h]
        omega
      · have := (ih (iter + 1) _).2 h
        omega

/-! ### Evaluation counting -/

theorem acceptInto_count (s : Core α) (src : List α) (x : α) :
    (acceptInto s src x).evalCount = s.evalCount := rfl

theorem expandStep_count (F : List α → α) (C : Option (List α → List α))
    (fr : α) (vm vr : List α) (s : Core α) :
    (expandStep F C fr vm vr s).evalCount = s.evalCount + 1 := by
  unfold expandStep
  dsimp only
  split <;> rfl

theorem shrinkStep_count (F : List α → α) (C : Option (List α → List α))
    (s : Core α) :
    (shrinkStep F C s).evalCount = s.evalCount + (s.size + 1) + 1 + 1 := rfl

theorem contractStep_count (F : List α → α) (C : Option (List α → List α))
    (fr : α) (vm vr : List α) (s : Core α) :
    (contractStep F C fr vm vr s).1.evalCount =
      s.evalCount + 1 +
        (if (contractStep F C fr vm vr s).2 = true then s.size + 3 else 0) := by
  unfold contractStep
  dsimp only
  split <;> split <;>
    simp only [shrinkStep_count, acceptInto, doEvaluate, if_true, if_false,
      decide_True, decide_False] <;>
    first
      | rfl
      | omega


/-! ### Size preservation -/

theorem iteCore_size {P : Prop} [Decidable P] {s t : Core α} {n : ℕ}
    (hs : s.size = n) (ht : t.size = n) : (if P then s else t).size = n := by
  split <;> assumption

theorem itePair_size {P : Prop} [Decidable P] {x y : Core α × Bool} {n : ℕ}
    (hx : x.1.size = n) (hy : y.1.size = n) :
    (if P then x else y).1.size = n := by
  split <;> assumption

theorem expandStep_size (F : List α → α) (C : Option (List α → List α))
    (fr : α) (vm vr : List α) (s : Core α) :
    (expandStep F C fr vm vr s).size = s.size := by
  unfold expandStep
  dsimp only
  exact iteCore_size rfl rfl

theorem shrinkHalve_size (s : Core α) : (shrinkHalve s).size = s.size := rfl

theorem evalAll_size (F : List α → α) (s : Core α) :
    (evalAll F s).size = s.size := rfl

theorem doIndexes_size (s : Core α) : (doIndexes s).size = s.size := rfl

theorem constrainEvalVg_size (F : List α → α)
    (C : Option (List α → List α)) (s : Core α) :
    (constrainEvalVg F C s).size = s.size := rfl

theorem constrainEvalVh_size (F : List α → α)
    (C : Option (List α → List α)) (s : Core α) :
    (constrainEvalVh F C s).size = s.size := rfl

theorem shrinkStep_size (F : List α → α) (C : Option (List α → List α))
    (s : Core α) : (shrinkStep F C s).size = s.size := by
  unfold shrinkStep
  rw [constrainEvalVh_size, constrainEvalVg_size, doIndexes_size,
    evalAll_size, shrinkHalve_size]

theorem contractStep_size (F : List α → α) (C : Option (List α → List α))
    (fr : α) (vm vr : List α) (s : Core α) :
    (contractStep F C fr vm vr s).1.size = s.size := by
  unfold contractStep
  dsimp only
  exact itePair_size rfl (Eq.trans (shrinkStep_size F C _) rfl)

theorem bodyState_size (F : List α → α) (C : Option (List α → List α))
    (sq : α → α) (tolerancee : α) (s : Core α) :
    (bodyState F C sq tolerancee s).size = s.size := by
  unfold bodyState bodyWithFlags
  dsimp only
  exact itePair_size
    (Eq.trans (contractStep_size F C _ _ _ _)
      (iteCore_size (Eq.trans (expandStep_size F C _ _ _ _)
          (iteCore_size rfl rfl))
        (iteCore_size rfl rfl)))
    (iteCore_size (Eq.trans (expandStep_size F C _ _ _ _)
        (iteCore_size rfl rfl))
      (iteCore_size rfl rfl))

/-! ### The per-iteration evaluation count -/

theorem bodyTailBC_count (F : List α → α) (C : Option (List α → List α))
    (fr : α) (vm vr : List α) (s2 : Core α) (n : ℕ) (hn : s2.size = n) :
    ((if fr ≥ fGet (if fr < fGet s2.f s2.vs then expandStep F C fr vm vr s2
          else s2).f
        (if fr < fGet s2.f s2.vs then expandStep F C fr vm vr s2
          else s2).vh then
      contractStep F C fr vm vr
        (if fr < fGet s2.f s2.vs then expandStep F C fr vm vr s2 else s2)
    else
      ((if fr < fGet s2.f s2.vs then expandStep F C fr vm vr s2 else s2),
        false)).1.evalCount) =
      s2.evalCount +
        (if decide (fr < fGet s2.f s2.vs) = true then 1 else 0) +
        (if decide (fr ≥ fGet (if fr < fGet s2.f s2.vs then
              expandStep F C fr vm vr s2 else s2).f
            (if fr < fGet s2.f s2.vs then expandStep F C fr vm vr s2
              else s2).vh) = true then 1 else 0) +
        (if ((if fr ≥ fGet (if fr < fGet s2.f s2.vs then
              expandStep F C fr vm vr s2 else s2).f
            (if fr < fGet s2.f s2.vs then expandStep F C fr vm vr s2
              else s2).vh then
          contractStep F C fr vm vr
            (if fr < fGet s2.f s2.vs then expandStep F C fr vm vr s2 else s2)
        else
          ((if fr < fGet s2.f s2.vs then expandStep F C fr vm vr s2 else s2),
            false)).2) = true then n + 3 else 0) := by
  by_cases hB : fr < fGet s2.f s2.vs
  · rw [if_pos hB]
    by_cases hc : fr ≥ fGet (expandStep F C fr vm vr s2).f
        (expandStep F C fr vm vr s2).vh
    · rw [if_pos hc]
      rw [contractStep_count, expandStep_count, expandStep_size, hn,
        decide_eq_true hB, decide_eq_true hc]
      generalize (contractStep F C fr vm vr (expandStep F C fr vm vr s2)).2 = shr
      cases shr <;> simp
    · rw [if_neg hc]
      rw [expandStep_count, decide_eq_true hB, decide_eq_false hc]
      simp
  · rw [if_neg hB]
    by_cases hc : fr ≥ fGet s2.f s2.vh
    · rw [if_pos hc]
      rw [contractStep_count, hn, decide_eq_false hB, decide_eq_true hc]
      generalize (contractStep F C fr vm vr s2).2 = shr
      cases shr <;> simp
    · rw [if_neg hc]
      rw [decide_eq_false hB, decide_eq_false hc]
      simp


theorem iteCore_evalCount {P : Prop} [Decidable P] {s t : Core α} {n : ℕ}
    (hs : s.evalCount = n) (ht : t.evalCount = n) :
    (if P then s else t).evalCount = n := by
  split <;> assumption

theorem bodyState_count (F : List α → α) (C : Option (List α → List α))
    (sq : α → α) (tolerancee : α) (s : Core α) :
    (bodyState F C sq tolerancee s).evalCount =
      s.evalCount + 1 +
        ((if (iterFlags F C sq tolerancee s).2.1 = true then 1 else 0) +
         (if (iterFlags F C sq tolerancee s).2.2.1 = true then 1 else 0) +
         (if (iterFlags F C sq tolerancee s).2.2.2 = true then s.size + 3
          else 0)) := by
  unfold bodyState iterFlags bodyWithFlags
  dsimp only
  rw [bodyTailBC_count F C _ _ _ _ s.size ?hn]
  case hn => exact iteCore_size rfl rfl
  rw [show (if (doEvaluate F (doIndexes s)
        (applyC C ((List.range (doIndexes s).size).map (fun j =>
          (centroid (doIndexes s).size (doIndexes s).vg
              (doIndexes s).v).getD j 0 +
            (doIndexes s).configReflectionCoefficient *
              ((centroid (doIndexes s).size (doIndexes s).vg
                  (doIndexes s).v).getD j 0 -
                rowGet (doIndexes s).v (doIndexes s).vg j))))).1 <
          fGet (doEvaluate F (doIndexes s)
            (applyC C ((List.range (doIndexes s).size).map (fun j =>
              (centroid (doIndexes s).size (doIndexes s).vg
                  (doIndexes s).v).getD j 0 +
                (doIndexes s).configReflectionCoefficient *
                  ((centroid (doIndexes s).size (doIndexes s).vg
                      (doIndexes s).v).getD j 0 -
                    rowGet (doIndexes s).v (doIndexes s).vg j))))).2.f
            (doEvaluate F (doIndexes s)
              (applyC C ((List.range (doIndexes s).size).map (fun j =>
                (centroid (doIndexes s).size (doIndexes s).vg
                    (doIndexes s).v).getD j 0 +
                  (doIndexes s).configReflectionCoefficient *
                    ((centroid (doIndexes s).size (doIndexes s).vg
                        (doIndexes s).v).getD j 0 -
                      rowGet (doIndexes s).v (doIndexes s).vg j))))).2.vh ∧
          (doEvaluate F (doIndexes s)
            (applyC C ((List.range (doIndexes s).size).map (fun j =>
              (centroid (doIndexes s).size (doIndexes s).vg
                  (doIndexes s).v).getD j 0 +
                (doIndexes s).configReflectionCoefficient *
                  ((centroid (doIndexes s).size (doIndexes s).vg
                      (doIndexes s).v).getD j 0 -
                    rowGet (doIndexes s).v (doIndexes s).vg j))))).1 ≥
            fGet (doEvaluate F (doIndexes s)
              (applyC C ((List.range (doIndexes s).size).map (fun j =>
                (centroid (doIndexes s).size (doIndexes s).vg
                    (doIndexes s).v).getD j 0 +
                  (doIndexes s).configReflectionCoefficient *
                    ((centroid (doIndexes s).size (doIndexes s).vg
                        (doIndexes s).v).getD j 0 -
                      rowGet (doIndexes s).v (doIndexes s).vg j))))).2.f
              (doEvaluate F (doIndexes s)
                (applyC C ((List.range (doIndexes s).size).map (fun j =>
                  (centroid (doIndexes s).size (doIndexes s).vg
                      (doIndexes s).v).getD j 0 +
                    (doIndexes s).configReflectionCoefficient *
                      ((centroid (doIndexes s).size (doIndexes s).vg
                          (doIndexes s).v).getD j 0 -
                        rowGet (doIndexes s).v (doIndexes s).vg j))))).2.vs
        then
          acceptInto (doEvaluate F (doIndexes s)
            (applyC C ((List.range (doIndexes s).size).map (fun j =>
              (centroid (doIndexes s).size (doIndexes s).vg
                  (doIndexes s).v).getD j 0 +
                (doIndexes s).configReflectionCoefficient *
                  ((centroid (doIndexes s).size (doIndexes s).vg
                      (doIndexes s).v).getD j 0 -
                    rowGet (doIndexes s).v (doIndexes s).vg j))))).2
            (applyC C ((List.range (doIndexes s).size).map (fun j =>
              (centroid (doIndexes s).size (doIndexes s).vg
                  (doIndexes s).v).getD j 0 +
                (doIndexes s).configReflectionCoefficient *
                  ((centroid (doIndexes s).size (doIndexes s).vg
                      (doIndexes s).v).getD j 0 -
                    rowGet (doIndexes s).v (doIndexes s).vg j))))
            (doEvaluate F (doIndexes s)
              (applyC C ((List.range (doIndexes s).size).map (fun j =>
                (centroid (doIndexes s).size (doIndexes s).vg
                    (doIndexes s).v).getD j 0 +
                  (doIndexes s).configReflectionCoefficient *
                    ((centroid (doIndexes s).size (doIndexes s).vg
                        (doIndexes s).v).getD j 0 -
                      rowGet (doIndexes s).v (doIndexes s).vg j))))).1
        else (doEvaluate F (doIndexes s)
          (applyC C ((List.range (doIndexes s).size).map (fun j =>
            (centroid (doIndexes s).size (doIndexes s).vg
                (doIndexes s).v).getD j 0 +
              (doIndexes s).configReflectionCoefficient *
                ((centroid (doIndexes s).size (doIndexes s).vg
                    (doIndexes s).v).getD j 0 -
                  rowGet (doIndexes s).v (doIndexes s).vg j))))).2).evalCount
      = s.evalCount + 1 from iteCore_evalCount rfl rfl]
  ac_rfl


/-! ### Value-table synchronization -/

theorem iteCore_Sync {F : List α → α} {P : Prop} [Decidable P]
    {s t : Core α} (hs : Sync F s) (ht : Sync F t) :
    Sync F (if P then s else t) := by
  split <;> assumption

theorem itePair_Sync {F : List α → α} {P : Prop} [Decidable P]
    {x y : Core α × Bool} (hx : Sync F x.1) (hy : Sync F y.1) :
    Sync F ((if P then x else y).1) := by
  split <;> assumption

theorem acceptInto_Sync {F : List α → α} {s : Core α} (hw : WF s)
    (hs : Sync F s) {src : List α} {n : ℕ} (hn : s.size = n)
    (hsrc : src.length = n) {x : α} (hx : x = F src) :
    Sync F (acceptInto s src x) := by
  obtain ⟨l1, l2, l3, b1, b2, b3⟩ := hw
  intro i hi
  show (s.f.set s.vg x).getD i 0 =
    F ((writeRow s.v s.vg src s.size).getD i [])
  unfold writeRow
  rw [show (List.range s.size).map (fun j => src.getD j 0) = src from
    rangeMap_getD 0 (by omega), getD_set, getD_set]
  by_cases hvg : s.vg = i
  · rw [if_pos ⟨hvg, by omega⟩, if_pos ⟨hvg, by omega⟩, hx]
  · rw [if_neg (fun h => hvg h.1), if_neg (fun h => hvg h.1)]
    exact hs i hi

theorem doEvaluate_Sync {F : List α → α} (x : List α) {s : Core α}
    (hs : Sync F s) : Sync F (doEvaluate F s x).2 := hs

theorem expandStep_Sync (F : List α → α) (C : Option (List α → List α))
    (hC : ∀ x, (applyC C x).length = x.length) (fr : α) (vm vr : List α)
    {s : Core α} (hw : WF s) (hs : Sync F s) {n : ℕ} (hn : s.size = n)
    (hvr : vr.length = n) (hfr : fr = F vr) :
    Sync F (expandStep F C fr vm vr s) := by
  unfold expandStep
  dsimp only
  exact iteCore_Sync
    (acceptInto_Sync hw hs hn (by rw [hC, length_rangeMap]; exact hn) rfl)
    (acceptInto_Sync hw hs hn hvr hfr)

theorem evalAll_Sync (F : List α → α) (t : Core α) : Sync F (evalAll F t) := by
  intro i hi
  have hi2 : i ≤ t.size := hi
  show ((List.range (t.size + 1)).map (fun j => F (t.v.getD j []))).getD i 0 =
    F (t.v.getD i [])
  exact getD_rangeMap _ 0 (by omega)

theorem doIndexes_Sync {F : List α → α} {s : Core α} (hs : Sync F s) :
    Sync F (doIndexes s) := hs

theorem constrainEvalVg_Sync (F : List α → α)
    (C : Option (List α → List α)) {s : Core α} (hw : WF s)
    (hs : Sync F s) : Sync F (constrainEvalVg F C s) := by
  obtain ⟨l1, l2, l3, b1, b2, b3⟩ := hw
  intro i hi
  have hi2 : i ≤ s.size := hi
  show (s.f.set s.vg
      (F ((s.v.set s.vg (applyC C (s.v.getD s.vg []))).getD s.vg []))).getD i 0
    = F ((s.v.set s.vg (applyC C (s.v.getD s.vg []))).getD i [])
  rw [getD_set]
  by_cases hvg : s.vg = i
  · rw [if_pos ⟨hvg, by omega⟩, hvg]
  · rw [if_neg (fun h => hvg h.1), getD_set, if_neg (fun h => hvg h.1)]
    exact hs i hi2

theorem constrainEvalVh_Sync (F : List α → α)
    (C : Option (List α → List α)) {s : Core α} (hw : WF s)
    (hs : Sync F s) : Sync F (constrainEvalVh F C s) := by
  obtain ⟨l1, l2, l3, b1, b2, b3⟩ := hw
  intro i hi
  have hi2 : i ≤ s.size := hi
  show (s.f.set s.vh
      (F ((s.v.set s.vh (applyC C (s.v.getD s.vh []))).getD s.vh []))).getD i 0
    = F ((s.v.set s.vh (applyC C (s.v.getD s.vh []))).getD i [])
  rw [getD_set]
  by_cases hvh : s.vh = i
  · rw [if_pos ⟨hvh, by omega⟩, hvh]
  · rw [if_neg (fun h => hvh h.1), getD_set, if_neg (fun h => hvh h.1)]
    exact hs i hi2


theorem shrinkStep_Sync (F : List α → α) (C : Option (List α → List α))
    (hC : ∀ x, (applyC C x).length = x.length) {s : Core α} (hw : WF s) :
    Sync F (shrinkStep F C s) :=
  constrainEvalVh_Sync F C
    (constrainEvalVg_WF F C hC (doIndexes_WF (evalAll_WF F (shrinkHalve_WF hw))))
    (constrainEvalVg_Sync F C
      (doIndexes_WF (evalAll_WF F (shrinkHalve_WF hw)))
      (doIndexes_Sync (evalAll_Sync F _)))

theorem contractStep_Sync (F : List α → α) (C : Option (List α → List α))
    (hC : ∀ x, (applyC C x).length = x.length) (fr : α) (vm vr : List α)
    {s : Core α} (hw : WF s) (hs : Sync F s) :
    Sync F (contractStep F C fr vm vr s).1 := by
  unfold contractStep
  dsimp only
  exact itePair_Sync
    (acceptInto_Sync hw hs rfl
      (by rw [hC]; split <;> exact length_rangeMap _ _) rfl)
    (shrinkStep_Sync F C hC hw)

theorem bodyState_Sync (F : List α → α) (C : Option (List α → List α))
    (sq : α → α) (tolerancee : α)
    (hC : ∀ x, (applyC C x).length = x.length) {s : Core α}
    (hw : WF s) (hs : Sync F s) :
    Sync F (bodyState F C sq tolerancee s) := by
  have h2W : ∀ x : List α, WF (doEvaluate F (doIndexes s) x).2 :=
    fun _ => doIndexes_WF hw
  have h2S : ∀ x : List α, Sync F (doEvaluate F (doIndexes s) x).2 :=
    fun _ => doIndexes_Sync hs
  unfold bodyState bodyWithFlags
  dsimp only
  exact itePair_Sync
    (contractStep_Sync F C hC _ _ _
      (iteCore_WF
        (expandStep_WF F C _ _ _ (iteCore_WF (acceptInto_WF (h2W _) _ _) (h2W _)))
        (iteCore_WF (acceptInto_WF (h2W _) _ _) (h2W _)))
      (iteCore_Sync
        (expandStep_Sync F C hC _ _ _
          (iteCore_WF (acceptInto_WF (h2W _) _ _) (h2W _))
          (iteCore_Sync
            (acceptInto_Sync (h2W _) (h2S _) rfl
              (by rw [hC]; exact length_rangeMap _ _) rfl)
            (h2S _))
          (iteCore_size rfl rfl)
          (by rw [hC]; exact length_rangeMap _ _) rfl)
        (iteCore_Sync
          (acceptInto_Sync (h2W _) (h2S _) rfl
            (by rw [hC]; exact length_rangeMap _ _) rfl)
          (h2S _))))
    (iteCore_Sync
      (expandStep_Sync F C hC _ _ _
        (iteCore_WF (acceptInto_WF (h2W _) _ _) (h2W _))
        (iteCore_Sync
          (acceptInto_Sync (h2W _) (h2S _) rfl
            (by rw [hC]; exact length_rangeMap _ _) rfl)
          (h2S _))
        (iteCore_size rfl rfl)
        (by rw [hC]; exact length_rangeMap _ _) rfl)
      (iteCore_Sync
        (acceptInto_Sync (h2W _) (h2S _) rfl
          (by rw [hC]; exact length_rangeMap _ _) rfl)
        (h2S _)))

theorem execInitState_Sync (F : List α → α) (C : Option (List α → List α))
    (sq : α → α) (start : List α) (scale : α) (s : Core α) :
    Sync F (execInitState F C sq start scale s) :=
  evalAll_Sync F _


/-! ### Box confinement under a clamping constraint -/

theorem clampList_mem {lo hi : α} (h : lo ≤ hi) {y : List α} {x : α}
    (hx : x ∈ clampList lo hi y) : lo ≤ x ∧ x ≤ hi := by
  rcases List.mem_map.mp hx with ⟨t, _, rfl⟩
  exact ⟨le_min h (le_max_left lo t), min_le_left _ _⟩

theorem clampList_length (lo hi : α) (y : List α) :
    (clampList lo hi y).length = y.length := by
  simp [clampList]

theorem iteCore_InBox {lo hi : α} {P : Prop} [Decidable P] {s t : Core α}
    (hs : InBox lo hi s) (ht : InBox lo hi t) :
    InBox lo hi (if P then s else t) := by
  split <;> assumption

theorem itePair_InBox {lo hi : α} {P : Prop} [Decidable P]
    {x y : Core α × Bool} (hx : InBox lo hi x.1) (hy : InBox lo hi y.1) :
    InBox lo hi ((if P then x else y).1) := by
  split <;> assumption

theorem rowGet_box {lo hi : α} {s : Core α} (hw : WF s)
    (hbox : InBox lo hi s) {i j : ℕ} (hil : i < s.v.length)
    (hj : j < s.size) : lo ≤ rowGet s.v i j ∧ rowGet s.v i j ≤ hi := by
  have hmem : s.v.getD i [] ∈ s.v := getD_mem _ hil
  have hlen : (s.v.getD i []).length = s.size := hw.2.1 _ hmem
  exact hbox _ hmem _ (getD_mem _ (by omega))

theorem acceptInto_InBox {lo hi : α} {s : Core α} (hbox : InBox lo hi s)
    {src : List α} (hsrc : ∀ y ∈ src, lo ≤ y ∧ y ≤ hi)
    (hlen : s.size ≤ src.length) {x : α} :
    InBox lo hi (acceptInto s src x) := by
  intro row hrow
  rcases List.mem_or_eq_of_mem_set hrow with hr | hr
  · exact hbox row hr
  · intro y hy
    rw [hr] at hy
    rcases List.mem_map.mp hy with ⟨j, hj, rfl⟩
    have := List.mem_range.mp hj
    exact hsrc _ (getD_mem _ (by omega))

theorem doEvaluate_InBox {lo hi : α} (F : List α → α) (x : List α)
    {s : Core α} (hbox : InBox lo hi s) :
    InBox lo hi (doEvaluate F s x).2 := hbox

theorem expandStep_InBox {lo hi : α} (F : List α → α)
    (C : Option (List α → List α))
    (hCbox : ∀ x, ∀ y ∈ applyC C x, lo ≤ y ∧ y ≤ hi)
    (hC : ∀ x, (applyC C x).length = x.length) (fr : α) (vm vr : List α)
    {s : Core α} (hbox : InBox lo hi s)
    (hvr : ∀ y ∈ vr, lo ≤ y ∧ y ≤ hi) (hvrl : s.size ≤ vr.length) :
    InBox lo hi (expandStep F C fr vm vr s) := by
  unfold expandStep
  dsimp only
  refine iteCore_InBox ?_ ?_
  · refine acceptInto_InBox ?_ ?_ ?_
    · exact hbox
    · exact hCbox _
    · rw [hC, length_rangeMap]
      exact le_rfl
  · refine acceptInto_InBox ?_ ?_ ?_
    · exact hbox
    · exact hvr
    · exact hvrl

theorem shrinkHalve_InBox {lo hi : α} {s : Core α} (hw : WF s)
    (hbox : InBox lo hi s) : InBox lo hi (shrinkHalve s) := by
  obtain ⟨l1, l2, l3, b1, b2, b3⟩ := hw
  intro row hrow
  rcases List.mem_map.mp hrow with ⟨r, hr, hrow⟩
  have hr2 := List.mem_range.mp hr
  rw [← hrow]
  split
  · intro y hy
    rcases List.mem_map.mp hy with ⟨j, hj, rfl⟩
    have hj2 := List.mem_range.mp hj
    have hvs := rowGet_box ⟨l1, l2, l3, b1, b2, b3⟩ hbox
      (show s.vs < s.v.length by omega) hj2
    have hrr := rowGet_box ⟨l1, l2, l3, b1, b2, b3⟩ hbox
      (show r < s.v.length by omega) hj2
    constructor
    · nlinarith [hvs.1, hvs.2, hrr.1, hrr.2]
    · nlinarith [hvs.1, hvs.2, hrr.1, hrr.2]
  · exact hbox _ (getD_mem _ (by omega))

theorem evalAll_InBox {lo hi : α} (F : List α → α) {t : Core α}
    (hbox : InBox lo hi t) : InBox lo hi (evalAll F t) := hbox

theorem doIndexes_InBox {lo hi : α} {s : Core α} (hbox : InBox lo hi s) :
    InBox lo hi (doIndexes s) := hbox

theorem constrainEvalVg_InBox {lo hi : α} (F : List α → α)
    (C : Option (List α → List α))
    (hCbox : ∀ x, ∀ y ∈ applyC C x, lo ≤ y ∧ y ≤ hi) {s : Core α}
    (hbox : InBox lo hi s) : InBox lo hi (constrainEvalVg F C s) := by
  intro row hrow
  rcases List.mem_or_eq_of_mem_set hrow with hr | hr
  · exact hbox row hr
  · intro y hy
    rw [hr] at hy
    exact hCbox _ _ hy

theorem constrainEvalVh_InBox {lo hi : α} (F : List α → α)
    (C : Option (List α → List α))
    (hCbox : ∀ x, ∀ y ∈ applyC C x, lo ≤ y ∧ y ≤ hi) {s : Core α}
    (hbox : InBox lo hi s) : InBox lo hi (constrainEvalVh F C s) := by
  intro row hrow
  rcases List.mem_or_eq_of_mem_set hrow with hr | hr
  · exact hbox row hr
  · intro y hy
    rw [hr] at hy
    exact hCbox _ _ hy

theorem shrinkStep_InBox {lo hi : α} (F : List α → α)
    (C : Option (List α → List α))
    (hCbox : ∀ x, ∀ y ∈ applyC C x, lo ≤ y ∧ y ≤ hi) {s : Core α}
    (hw : WF s) (hbox : InBox lo hi s) : InBox lo hi (shrinkStep F C s) :=
  constrainEvalVh_InBox F C hCbox
    (constrainEvalVg_InBox F C hCbox
      (doIndexes_InBox (evalAll_InBox F (shrinkHalve_InBox hw hbox))))

theorem contractStep_InBox {lo hi : α} (F : List α → α)
    (C : Option (List α → List α))
    (hCbox : ∀ x, ∀ y ∈ applyC C x, lo ≤ y ∧ y ≤ hi)
    (hC : ∀ x, (applyC C x).length = x.length) (fr : α) (vm vr : List α)
    {s : Core α} (hw : WF s) (hbox : InBox lo hi s) :
    InBox lo hi (contractStep F C fr vm vr s).1 := by
  unfold contractStep
  dsimp only
  refine itePair_InBox ?_ ?_
  · refine acceptInto_InBox ?_ ?_ ?_
    · exact hbox
    · exact hCbox _
    · rw [hC]
      split <;> rw [length_rangeMap] <;> exact le_rfl
  · exact shrinkStep_InBox F C hCbox hw hbox

theorem bodyState_InBox {lo hi : α} (F : List α → α)
    (C : Option (List α → List α))
    (sq : α → α) (tolerancee : α)
    (hCbox : ∀ x, ∀ y ∈ applyC C x, lo ≤ y ∧ y ≤ hi)
    (hC : ∀ x, (applyC C x).length = x.length) {s : Core α}
    (hw : WF s) (hbox : InBox lo hi s) :
    InBox lo hi (bodyState F C sq tolerancee s) := by
  have h2W : ∀ x : List α, WF (doEvaluate F (doIndexes s) x).2 :=
    fun _ => doIndexes_WF hw
  have h2B : ∀ x : List α, InBox lo hi (doEvaluate F (doIndexes s) x).2 :=
    fun _ => doIndexes_InBox hbox
  unfold bodyState bodyWithFlags
  dsimp only
  have hB3 : ∀ x : List α, (∀ y ∈ x, lo ≤ y ∧ y ≤ hi) →
      (doIndexes s).size ≤ x.length → ∀ z : α,
      InBox lo hi (if (doEvaluate F (doIndexes s) x).1 <
            fGet (doEvaluate F (doIndexes s) x).2.f
              (doEvaluate F (doIndexes s) x).2.vh ∧
          (doEvaluate F (doIndexes s) x).1 ≥
            fGet (doEvaluate F (doIndexes s) x).2.f
              (doEvaluate F (doIndexes s) x).2.vs then
        acceptInto (doEvaluate F (doIndexes s) x).2 x z
      else (doEvaluate F (doIndexes s) x).2) := by
    intro x hx hl z
    refine iteCore_InBox ?_ (h2B _)
    refine acceptInto_InBox ?_ ?_ ?_
    · exact h2B _
    · exact hx
    · exact hl
  have hW3 : ∀ x y : List α, ∀ z : α,
      WF (if (doEvaluate F (doIndexes s) x).1 <
            fGet (doEvaluate F (doIndexes s) x).2.f
              (doEvaluate F (doIndexes s) x).2.vh ∧
          (doEvaluate F (doIndexes s) x).1 ≥
            fGet (doEvaluate F (doIndexes s) x).2.f
              (doEvaluate F (doIndexes s) x).2.vs then
        acceptInto (doEvaluate F (doIndexes s) x).2 y z
      else (doEvaluate F (doIndexes s) x).2) := by
    intro x y z
    exact iteCore_WF (acceptInto_WF (h2W _) _ _) (h2W _)
  have hxlen : (doIndexes s).size ≤
      (applyC C ((List.range (doIndexes s).size).map (fun j =>
        (centroid (doIndexes s).size (doIndexes s).vg
            (doIndexes s).v).getD j 0 +
          (doIndexes s).configReflectionCoefficient *
            ((centroid (doIndexes s).size (doIndexes s).vg
                (doIndexes s).v).getD j 0 -
              rowGet (doIndexes s).v (doIndexes s).vg j)))).length := by
    rw [hC, length_rangeMap]
  refine itePair_InBox ?_ ?_
  · refine contractStep_InBox F C hCbox hC _ _ _ ?_ ?_
    · exact iteCore_WF
        (expandStep_WF F C _ _ _ (hW3 _ _ _)) (hW3 _ _ _)
    · refine iteCore_InBox ?_ (hB3 _ (hCbox _) hxlen _)
      refine expandStep_InBox F C hCbox hC _ _ _
        (hB3 _ (hCbox _) hxlen _) (hCbox _) ?_
      rw [hC, length_rangeMap]
      exact le_of_eq (iteCore_size rfl rfl)
  · refine iteCore_InBox ?_ (hB3 _ (hCbox _) hxlen _)
    refine expandStep_InBox F C hCbox hC _ _ _
      (hB3 _ (hCbox _) hxlen _) (hCbox _) ?_
    rw [hC, length_rangeMap]
    exact le_of_eq (iteCore_size rfl rfl)

theorem execInitState_InBox {lo hi : α} (F : List α → α)
    (C : Option (List α → List α))
    (hCbox : ∀ x, ∀ y ∈ applyC C x, lo ≤ y ∧ y ≤ hi)
    (hCsome : C.isSome = true)
    (sq : α → α) (start : List α) (scale : α) (s : Core α) :
    InBox lo hi (execInitState F C sq start scale s) := by
  show InBox lo hi (evalAll F (constrainAll C (doInitialize sq start scale s)))
  refine evalAll_InBox F ?_
  cases C with
  | none => cases hCsome
  | some g =>
    intro row hrow
    rcases List.mem_map.mp hrow with ⟨i, _, hrow⟩
    intro y hy
    rw [← hrow] at hy
    exact hCbox _ _ hy


/-! ### The convergence statistic -/

theorem foldl_add_map (g : ℕ → α) (l : List ℕ) (a : α) :
    l.foldl (fun acc j => acc + g j) a = a + (l.map g).sum := by
  induction l generalizing a with
  | nil => simp
  | cons x xs ih => simp [ih, add_assoc]

theorem sum_map_div (g : ℕ → α) (l : List ℕ) (c : α) :
    (l.map (fun j => g j / c)).sum = (l.map g).sum / c := by
  induction l with
  | nil => simp
  | cons x xs ih => simp [ih, add_div]

theorem convergedTest_eq (sq : α → α) (tolerancee : α) (t : Core α) :
    convergedTest sq tolerancee t =
      decide (sq (((List.range (t.size + 1)).map (fun j =>
          (fGet t.f j -
            ((List.range (t.size + 1)).map (fun j => fGet t.f j)).sum /
              ((t.size : α) + 1)) ^ 2)).sum / (t.size : α)) < tolerancee) := by
  unfold convergedTest
  dsimp only
  rw [foldl_add_map, zero_add, foldl_add_map, zero_add, sum_map_div]


/-! ### Branch logic of one iteration -/

theorem iterFlags_logic (F : List α → α) (C : Option (List α → List α))
    (sq : α → α) (tolerancee : α) (s : Core α) :
    ((iterFlags F C sq tolerancee s).1 = true →
      (iterFlags F C sq tolerancee s).2.1 = false ∧
        (iterFlags F C sq tolerancee s).2.2.1 = false) ∧
    ((iterFlags F C sq tolerancee s).1 || (iterFlags F C sq tolerancee s).2.1 ||
      (iterFlags F C sq tolerancee s).2.2.1) = true := by
  have hvh := doIndexes_vh_cases s
  unfold iterFlags bodyWithFlags
  dsimp only [doEvaluate, acceptInto]
  set u := doIndexes s with hu
  set w := applyC C ((List.range u.size).map (fun j =>
    (centroid u.size u.vg u.v).getD j 0 +
      u.configReflectionCoefficient *
        ((centroid u.size u.vg u.v).getD j 0 - rowGet u.v u.vg j))) with hw
  set G := F w with hG
  by_cases hA : G < fGet u.f u.vh ∧ G ≥ fGet u.f u.vs
  · simp only [if_pos hA]
    have hB : ¬ (G < fGet (u.f.set u.vg G) u.vs) := by
      show ¬ (G < (u.f.set u.vg G).getD u.vs 0)
      rw [getD_set]
      split
      · exact lt_irrefl G
      · exact not_lt.mpr hA.2
    have hC : ¬ (G ≥ fGet (u.f.set u.vg G) u.vh) := by
      show ¬ (G ≥ (u.f.set u.vg G).getD u.vh 0)
      rw [getD_set]
      split
      · rename_i hcond
        exfalso
        rcases hvh with hvv | hlt
        · rw [hvv] at hA
          exact absurd hA.1 (not_lt.mpr hA.2)
        · rw [hcond.1] at hlt
          exact lt_irrefl _ hlt
      · exact not_le.mpr hA.1
    simp only [if_neg hB, if_neg hC]
    constructor
    · intro
      exact ⟨decide_eq_false hB, decide_eq_false hC⟩
    · rw [decide_eq_true hA]
      rfl
  · simp only [if_neg hA]
    by_cases hB : G < fGet u.f u.vs
    · simp only [if_pos hB]
      constructor
      · intro h
        exact absurd h (by simp [decide_eq_false hA])
      · simp [decide_eq_true hB]
    · simp only [if_neg hB]
      have hC : G ≥ fGet u.f u.vh := by
        rcases not_and_or.mp hA with h | h
        · exact not_lt.mp h
        · exact absurd (not_lt.mp hB) (by simpa using h)
      constructor
      · intro h
        exact absurd h (by simp [decide_eq_false hA])
      · simp [decide_eq_true hC]


/-! ### Determinism across runs -/

theorem execInitState_core_eq (F : List α → α)
    (C : Option (List α → List α)) (sq : α → α) (start : List α) (scale : α)
    (c d : Core α) (h1 : c.size = d.size)
    (h2 : c.configMaxIterations = d.configMaxIterations)
    (h3 : c.configReflectionCoefficient = d.configReflectionCoefficient)
    (h4 : c.configContractionCoefficient = d.configContractionCoefficient)
    (h5 : c.configExpansionCoefficient = d.configExpansionCoefficient) :
    execInitState F C sq start scale c = execInitState F C sq start scale d := by
  cases c
  cases d
  dsimp only at h1 h2 h3 h4 h5
  subst h1
  subst h2
  subst h3
  subst h4
  subst h5
  cases C <;> rfl

theorem exec_results_eq (F : List α → α) (C : Option (List α → List α))
    (sq : α → α) (start : List α) (tolerancee scale : α) (S T : State α)
    (h1 : S.core.size = T.core.size)
    (h2 : S.core.configMaxIterations = T.core.configMaxIterations)
    (h3 : S.core.configReflectionCoefficient = T.core.configReflectionCoefficient)
    (h4 : S.core.configContractionCoefficient = T.core.configContractionCoefficient)
    (h5 : S.core.configExpansionCoefficient = T.core.configExpansionCoefficient) :
    (exec F C sq start tolerancee scale S).lastExecResults =
      (exec F C sq start tolerancee scale T).lastExecResults := by
  have h := execInitState_core_eq F C sq start scale S.core T.core h1 h2 h3 h4 h5
  unfold exec execCore
  dsimp only
  rw [h]


/-! ### Claims -/

/-- C1, counterexample: a run of `exec` on the constant-zero objective with
`maxIterations = 2` and `tolerance = 0` exhausts its iteration loop without
the spread statistic ever dropping below tolerance (`execBroke ... = false`),
yet the stored `iterationCount` is `3 = maxIterations + 1`, not
`maxIterations`, refuting both `iterationCount == maxIterations` on
non-convergence and `iterationCount ≤ maxIterations`. -/
theorem c1_counterexample :
    execBroke constZeroF none idsq [0] 0 1 (setMaxIterations 2 (construct 1)) =
      false ∧
    (setMaxIterations 2 (construct 1) : State ℚ).core.configMaxIterations = 2 ∧
    (exec constZeroF none idsq [0] 0 1
      (setMaxIterations 2 (construct 1))).lastExecResults.iterationCount = 3 := by
  with_unfolding_all decide

/-- C1, amended: when the iteration loop of `exec` exhausts the configured
maximum without the convergence break firing, the stored `iterationCount`
equals `configMaxIterations + 1` (the `++iterationCount` of the failing loop
test is stored); a run that leaves through the convergence break reports
`1 ≤ iterationCount ≤ configMaxIterations`.  Callers therefore detect
non-convergence by `iterationCount > maxIterations`. -/
theorem c1_amended (F : List α → α) (C : Option (List α → List α))
    (sq : α → α) (start : List α) (tolerancee scale : α) (S : State α) :
    (execBroke F C sq start tolerancee scale S = false →
      (exec F C sq start tolerancee scale S).lastExecResults.iterationCount =
        S.core.configMaxIterations + 1) ∧
    (execBroke F C sq start tolerancee scale S = true →
      1 ≤ (exec F C sq start tolerancee scale S).lastExecResults.iterationCount ∧
        (exec F C sq start tolerancee scale S).lastExecResults.iterationCount ≤
          S.core.configMaxIterations) := by
  have hcfg := (execInitState_fields F C sq start scale S.core).2.1
  have hcnt := execLoop_count F C sq tolerancee
    (execInitState F C sq start scale S.core).configMaxIterations 0
    (execInitState F C sq start scale S.core)
  constructor
  · intro h
    have h2 : (execLoop F C sq tolerancee
        (execInitState F C sq start scale S.core).configMaxIterations 0
        (execInitState F C sq start scale S.core)).2.2 = false := h
    have h3 := hcnt.1 h2
    show (execLoop F C sq tolerancee
        (execInitState F C sq start scale S.core).configMaxIterations 0
        (execInitState F C sq start scale S.core)).1 =
      S.core.configMaxIterations + 1
    omega
  · intro h
    have h2 : (execLoop F C sq tolerancee
        (execInitState F C sq start scale S.core).configMaxIterations 0
        (execInitState F C sq start scale S.core)).2.2 = true := h
    have h3 := hcnt.2 h2
    show 1 ≤ (execLoop F C sq tolerancee
        (execInitState F C sq start scale S.core).configMaxIterations 0
        (execInitState F C sq start scale S.core)).1 ∧
      (execLoop F C sq tolerancee
        (execInitState F C sq start scale S.core).configMaxIterations 0
        (execInitState F C sq start scale S.core)).1 ≤
        S.core.configMaxIterations
    omega

/-- Witness for the amended C1, at the concrete exhausting run of
`c1_counterexample`: the stored count is `maxIterations + 1`. -/
theorem c1_amended_witness :
    (exec constZeroF none idsq [0] 0 1
      (setMaxIterations 2 (construct 1))).lastExecResults.iterationCount =
      (setMaxIterations 2 (construct 1) : State ℚ).core.configMaxIterations + 1 :=
  (c1_amended constZeroF none idsq [0] 0 1
    (setMaxIterations 2 (construct 1))).1 (by with_unfolding_all decide)

/-- C2, counterexample: in the first iteration of the `exec` run with
objective `c2F`, start `[0]`, scale `1` (whose pre-loop state is
`execInitState ...`), the branch record is `(false, true, true, false)`: the
expansion path and the contraction path both execute in the same iteration,
refuting mutual exclusivity of the three acceptance branches.  (The two
initial vertices tie, so `doIndexes` leaves `vs = vh = vg`, the accepted
reflection overwrites `f[vg] = f[vh]`, and `fr >= f[vh]` then also holds.) -/
theorem c2_counterexample :
    iterFlags c2F none idsq (1/1000)
      (execInitState c2F none idsq [0] 1 (construct 1 : State ℚ).core) =
      (false, true, true, false) ∧
    1 ≤ (construct 1 : State ℚ).core.configMaxIterations := by
  with_unfolding_all decide

/-- C2, amended: in every iteration of `exec`, at least one of the three
acceptance branches executes, and the accept-reflection branch excludes the
other two; but the expansion path and the contraction path are not mutually
exclusive (they both run when the recomputed indices tie as in
`c2_counterexample`). -/
theorem c2_amended (F : List α → α) (C : Option (List α → List α))
    (sq : α → α) (tolerancee : α) (s : Core α) :
    ((iterFlags F C sq tolerancee s).1 = true →
      (iterFlags F C sq tolerancee s).2.1 = false ∧
        (iterFlags F C sq tolerancee s).2.2.1 = false) ∧
    ((iterFlags F C sq tolerancee s).1 || (iterFlags F C sq tolerancee s).2.1 ||
      (iterFlags F C sq tolerancee s).2.2.1) = true :=
  iterFlags_logic F C sq tolerancee s

/-- Witness for the amended C2, at the concrete state `w2` where the
accept-reflection branch fires: expansion and contraction are then skipped. -/
theorem c2_amended_witness :
    (iterFlags w2F none idsq (1/1000) w2).2.1 = false ∧
    (iterFlags w2F none idsq (1/1000) w2).2.2.1 = false :=
  (c2_amended w2F none idsq (1/1000) w2).1 (by with_unfolding_all decide)

/-- C3, counterexample: two `exec` runs (constant-zero objective vs `c3F`)
finish with identical value tables `[0, 0]` but different role triples — the
final `doIndexes` of the first run returns `vg = 0` while the second returns
`vg = 1`, because the scans are seeded with the indices carried from the
previous recomputation.  The triple is therefore not a function of the value
table alone. -/
theorem c3_counterexample :
    (exec constZeroF none idsq [0] (1/1000) 1 (construct 1)).core.f =
      (exec c3F none idsq [0] (1/1000) 1 (construct 1)).core.f ∧
    (exec constZeroF none idsq [0] (1/1000) 1 (construct 1)).core.vg = 0 ∧
    (exec c3F none idsq [0] (1/1000) 1 (construct 1)).core.vg = 1 := by
  with_unfolding_all decide

/-- C3, amended: after every recomputation, the value table and simplex are
untouched, the returned indices are in range (given in-range seeds), `vs`
indexes a minimum and `vg` a maximum of `f`, and `f[vh]` is the largest value
strictly below `f[vg]` whenever one exists; but on ties the particular
indices depend on the seeds `vs`, `vg` carried from the previous
recomputation (see `c3_counterexample`), so neither the triple as a function
of `f` alone nor the first-in-scan-order tie-break survives. -/
theorem c3_amended (s : Core α) (hvs : s.vs ≤ s.size) (hvg : s.vg ≤ s.size) :
    ((doIndexes s).f = s.f ∧ (doIndexes s).v = s.v) ∧
    ((doIndexes s).vs ≤ s.size ∧ (doIndexes s).vh ≤ s.size ∧
      (doIndexes s).vg ≤ s.size) ∧
    (∀ j, j ≤ s.size → fGet s.f (doIndexes s).vs ≤ fGet s.f j ∧
      fGet s.f j ≤ fGet s.f (doIndexes s).vg) ∧
    (∀ j, j ≤ s.size → fGet s.f j < fGet s.f (doIndexes s).vg →
      fGet s.f j ≤ fGet s.f (doIndexes s).vh) ∧
    ((∃ j, j ≤ s.size ∧ fGet s.f j < fGet s.f (doIndexes s).vg) →
      fGet s.f (doIndexes s).vh < fGet s.f (doIndexes s).vg) := by
  refine ⟨⟨rfl, rfl⟩,
    ⟨doIndexes_vs_le s hvs, doIndexes_vh_le s hvs, doIndexes_vg_le s hvg⟩,
    fun j hj => ⟨doIndexes_min s hj, doIndexes_max s hj⟩,
    fun j hj h => doIndexes_vh_max s hj h, ?_⟩
  rintro ⟨j, hj, hlt⟩
  rcases doIndexes_vh_cases s with hvv | h
  · rw [hvv]
    exact lt_of_le_of_lt (doIndexes_min s hj) hlt
  · exact h

/-- Witness for the amended C3, at the concrete state `w2`. -/
theorem c3_amended_witness :
    (((doIndexes w2).f = w2.f ∧ (doIndexes w2).v = w2.v) ∧
    ((doIndexes w2).vs ≤ w2.size ∧ (doIndexes w2).vh ≤ w2.size ∧
      (doIndexes w2).vg ≤ w2.size) ∧
    (∀ j, j ≤ w2.size → fGet w2.f (doIndexes w2).vs ≤ fGet w2.f j ∧
      fGet w2.f j ≤ fGet w2.f (doIndexes w2).vg) ∧
    (∀ j, j ≤ w2.size → fGet w2.f j < fGet w2.f (doIndexes w2).vg →
      fGet w2.f j ≤ fGet w2.f (doIndexes w2).vh) ∧
    ((∃ j, j ≤ w2.size ∧ fGet w2.f j < fGet w2.f (doIndexes w2).vg) →
      fGet w2.f (doIndexes w2).vh < fGet w2.f (doIndexes w2).vg)) :=
  c3_amended w2 (by decide) (by decide)


/-- C4: with a constraint callback that clamps every coordinate into
`[lo, hi]` (`lo ≤ hi`), every coordinate of every simplex vertex lies in
`[lo, hi]` after the initial constrain-and-evaluate pass, one iteration
preserves the confinement (together with well-formedness, and including
iterations taking the shrink path, whose halved vertices stay in the box
without being individually re-constrained), and hence the confinement holds
after every completed iteration of the loop. -/
theorem c4 {lo hi : α} (h : lo ≤ hi) (F : List α → α) (sq : α → α)
    (start : List α) (tolerancee scale : α) (s : Core α) :
    InBox lo hi (execInitState F (some (clampList lo hi)) sq start scale s) ∧
    (∀ t : Core α, WF t ∧ InBox lo hi t →
      WF (bodyState F (some (clampList lo hi)) sq tolerancee t) ∧
        InBox lo hi (bodyState F (some (clampList lo hi)) sq tolerancee t)) ∧
    (∀ fuel iter : ℕ,
      InBox lo hi (execLoop F (some (clampList lo hi)) sq tolerancee fuel iter
        (execInitState F (some (clampList lo hi)) sq start scale s)).2.1) := by
  have hCbox : ∀ x : List α, ∀ y ∈ applyC (some (clampList lo hi)) x,
      lo ≤ y ∧ y ≤ hi := fun x y hy => clampList_mem h hy
  have hC : ∀ x : List α, (applyC (some (clampList lo hi)) x).length =
      x.length := fun x => clampList_length lo hi x
  have hbody : ∀ t : Core α, WF t ∧ InBox lo hi t →
      WF (bodyState F (some (clampList lo hi)) sq tolerancee t) ∧
        InBox lo hi (bodyState F (some (clampList lo hi)) sq tolerancee t) :=
    fun t ht => ⟨bodyState_WF F _ sq tolerancee hC ht.1,
      bodyState_InBox F _ sq tolerancee hCbox hC ht.1 ht.2⟩
  refine ⟨execInitState_InBox F _ hCbox rfl sq start scale s, hbody,
    fun fuel iter => ?_⟩
  exact (execLoop_preserve F _ sq tolerancee
    (fun t => WF t ∧ InBox lo hi t) hbody fuel iter _
    ⟨execInitState_WF F _ sq start scale s hC,
      execInitState_InBox F _ hCbox rfl sq start scale s⟩).2

/-- Witness for C4 at `lo = 0`, `hi = 1`, the constant-zero objective and a
one-dimensional start. -/
theorem c4_witness :
    InBox (0 : ℚ) 1 (execInitState constZeroF (some (clampList 0 1)) idsq [0] 1
      (construct 1 : State ℚ).core) :=
  (c4 (by with_unfolding_all decide) constZeroF idsq [0] (1/1000) 1
    (construct 1 : State ℚ).core).1

/-- C5: with a length-preserving constraint callback (in particular with no
constraint at all), the value table and simplex stay synchronized: after the
initial evaluation pass every `f[i]` (`i ≤ N`) is the objective at the current
`v[i]`, one iteration preserves this synchronization (together with
well-formedness), and hence it holds after every completed iteration. -/
theorem c5 (F : List α → α) (C : Option (List α → List α)) (sq : α → α)
    (start : List α) (tolerancee scale : α) (s : Core α)
    (hC : ∀ x, (applyC C x).length = x.length) :
    Sync F (execInitState F C sq start scale s) ∧
    (∀ t : Core α, WF t ∧ Sync F t →
      WF (bodyState F C sq tolerancee t) ∧
        Sync F (bodyState F C sq tolerancee t)) ∧
    (∀ fuel iter : ℕ,
      Sync F (execLoop F C sq tolerancee fuel iter
        (execInitState F C sq start scale s)).2.1) := by
  have hbody : ∀ t : Core α, WF t ∧ Sync F t →
      WF (bodyState F C sq tolerancee t) ∧
        Sync F (bodyState F C sq tolerancee t) :=
    fun t ht => ⟨bodyState_WF F C sq tolerancee hC ht.1,
      bodyState_Sync F C sq tolerancee hC ht.1 ht.2⟩
  refine ⟨execInitState_Sync F C sq start scale s, hbody, fun fuel iter => ?_⟩
  exact (execLoop_preserve F C sq tolerancee
    (fun t => WF t ∧ Sync F t) hbody fuel iter _
    ⟨execInitState_WF F C sq start scale s hC,
      execInitState_Sync F C sq start scale s⟩).2

/-- Witness for C5 with no constraint callback, at the constant-zero
objective and a one-dimensional start. -/
theorem c5_witness :
    Sync constZeroF (execInitState constZeroF none idsq [0] 1
      (construct 1 : State ℚ).core) :=
  (c5 constZeroF none idsq [0] (1/1000) 1 (construct 1 : State ℚ).core
    (fun x => rfl)).1

/-- C6: the break flag computed by one iteration is exactly the test
`sqrt((Σ over j in 0..N of (f[j] - mean)^2) / N) < tolerance` on the value
table at the end of that iteration, where `mean` is the arithmetic mean of
the `N + 1` values (divisor under the root is `N`, not `N + 1`); and the
iteration loop stops early precisely when this flag is set, continuing with
the iteration's final state otherwise. -/
theorem c6 (F : List α → α) (C : Option (List α → List α)) (sq : α → α)
    (tolerancee : α) (s : Core α) :
    (bodyWithFlags F C sq tolerancee s).1.2 =
      decide (sq ((((List.range ((bodyState F C sq tolerancee s).size + 1)).map
          (fun j => (fGet (bodyState F C sq tolerancee s).f j -
            ((List.range ((bodyState F C sq tolerancee s).size + 1)).map
              (fun j => fGet (bodyState F C sq tolerancee s).f j)).sum /
              (((bodyState F C sq tolerancee s).size : α) + 1)) ^ 2)).sum) /
          ((bodyState F C sq tolerancee s).size : α)) < tolerancee) ∧
    (∀ fuel iter : ℕ,
      execLoop F C sq tolerancee (fuel + 1) iter s =
        if (bodyWithFlags F C sq tolerancee s).1.2 then
          (iter + 1, bodyState F C sq tolerancee s, true)
        else execLoop F C sq tolerancee fuel (iter + 1)
          (bodyState F C sq tolerancee s)) := by
  constructor
  · have h : (bodyWithFlags F C sq tolerancee s).1.2 =
        convergedTest sq tolerancee (bodyState F C sq tolerancee s) := rfl
    rw [h, convergedTest_eq]
  · intro fuel iter
    rfl

/-- C7: the evaluation counter is reset by the prologue to exactly the
`N + 1` initial evaluations regardless of its previous value; each iteration
adds one (the reflection) plus one if the expansion path runs, plus one if
the contraction path runs, plus `N + 3` if the shrink path runs (the `N + 1`
re-evaluations and one each for the new worst and second-worst vertices);
and the reported `evalCount` is the counter after the loop plus one for the
final re-evaluation at `v[vs]`. -/
theorem c7 (F : List α → α) (C : Option (List α → List α)) (sq : α → α)
    (start : List α) (tolerancee scale : α) (s : State α) :
    (execInitState F C sq start scale s.core).evalCount = s.core.size + 1 ∧
    (∀ t : Core α, (bodyState F C sq tolerancee t).evalCount =
      t.evalCount + 1 +
        ((if (iterFlags F C sq tolerancee t).2.1 = true then 1 else 0) +
         (if (iterFlags F C sq tolerancee t).2.2.1 = true then 1 else 0) +
         (if (iterFlags F C sq tolerancee t).2.2.2 = true then t.size + 3
          else 0))) ∧
    (exec F C sq start tolerancee scale s).lastExecResults.evalCount =
      (execLoop F C sq tolerancee
        (execInitState F C sq start scale s.core).configMaxIterations 0
        (execInitState F C sq start scale s.core)).2.1.evalCount + 1 :=
  ⟨(execInitState_fields F C sq start scale s.core).2.2,
   fun t => bodyState_count F C sq tolerancee t, rfl⟩

/-- C8: two `exec` calls whose receiving states agree on the construction
size and the four configuration fields produce identical stored Results
(iteration count, evaluation count, minimum value and minimizing
coordinates), whatever else the two states hold — no state besides the
configuration influences a run, so runs with identical start, tolerance,
scale and configuration are deterministic and unaffected by interleaved
calls. -/
theorem c8 (F : List α → α) (C : Option (List α → List α)) (sq : α → α)
    (start : List α) (tolerancee scale : α) (S T : State α)
    (h1 : S.core.size = T.core.size)
    (h2 : S.core.configMaxIterations = T.core.configMaxIterations)
    (h3 : S.core.configReflectionCoefficient =
      T.core.configReflectionCoefficient)
    (h4 : S.core.configContractionCoefficient =
      T.core.configContractionCoefficient)
    (h5 : S.core.configExpansionCoefficient =
      T.core.configExpansionCoefficient) :
    (exec F C sq start tolerancee scale S).lastExecResults =
      (exec F C sq start tolerancee scale T).lastExecResults :=
  exec_results_eq F C sq start tolerancee scale S T h1 h2 h3 h4 h5

/-- Witness for C8: a fresh instance and a state full of junk (stale
simplex, values, counters and stored results) with the same configuration
produce the same Results. -/
theorem c8_witness :
    (exec constZeroF none idsq [0] (1/1000) 1
      (construct 1)).lastExecResults =
      (exec constZeroF none idsq [0] (1/1000) 1
        junkState).lastExecResults :=
  c8 constZeroF none idsq [0] (1/1000) 1 (construct 1) junkState
    rfl rfl rfl rfl rfl

/-- C9: each configuration setter writes its own configuration field and
leaves every other field of the optimizer state — the other three
configuration values, the construction size, the simplex, the value table,
the counters, the role indices, and in particular the stored Result of a
previously completed run — unchanged. -/
theorem c9 (inN : ℕ) (inV : α) (s : State α) :
    ((setMaxIterations inN s).core.configMaxIterations = inN ∧
      (setMaxIterations inN s).core.size = s.core.size ∧
      (setMaxIterations inN s).core.configReflectionCoefficient =
        s.core.configReflectionCoefficient ∧
      (setMaxIterations inN s).core.configContractionCoefficient =
        s.core.configContractionCoefficient ∧
      (setMaxIterations inN s).core.configExpansionCoefficient =
        s.core.configExpansionCoefficient ∧
      (setMaxIterations inN s).core.v = s.core.v ∧
      (setMaxIterations inN s).core.f = s.core.f ∧
      (setMaxIterations inN s).core.evalCount = s.core.evalCount ∧
      (setMaxIterations inN s).core.vs = s.core.vs ∧
      (setMaxIterations inN s).core.vh = s.core.vh ∧
      (setMaxIterations inN s).core.vg = s.core.vg ∧
      (setMaxIterations inN s).lastExecResults = s.lastExecResults) ∧
    ((setReflectionCoefficient inV s).core.configReflectionCoefficient =
        inV ∧
      (setReflectionCoefficient inV s).core.size = s.core.size ∧
      (setReflectionCoefficient inV s).core.configMaxIterations =
        s.core.configMaxIterations ∧
      (setReflectionCoefficient inV s).core.configContractionCoefficient =
        s.core.configContractionCoefficient ∧
      (setReflectionCoefficient inV s).core.configExpansionCoefficient =
        s.core.configExpansionCoefficient ∧
      (setReflectionCoefficient inV s).core.v = s.core.v ∧
      (setReflectionCoefficient inV s).core.f = s.core.f ∧
      (setReflectionCoefficient inV s).core.evalCount = s.core.evalCount ∧
      (setReflectionCoefficient inV s).core.vs = s.core.vs ∧
      (setReflectionCoefficient inV s).core.vh = s.core.vh ∧
      (setReflectionCoefficient inV s).core.vg = s.core.vg ∧
      (setReflectionCoefficient inV s).lastExecResults =
        s.lastExecResults) ∧
    ((setContractionCoefficient inV s).core.configContractionCoefficient =
        inV ∧
      (setContractionCoefficient inV s).core.size = s.core.size ∧
      (setContractionCoefficient inV s).core.configMaxIterations =
        s.core.configMaxIterations ∧
      (setContractionCoefficient inV s).core.configReflectionCoefficient =
        s.core.configReflectionCoefficient ∧
      (setContractionCoefficient inV s).core.configExpansionCoefficient =
        s.core.configExpansionCoefficient ∧
      (setContractionCoefficient inV s).core.v = s.core.v ∧
      (setContractionCoefficient inV s).core.f = s.core.f ∧
      (setContractionCoefficient inV s).core.evalCount = s.core.evalCount ∧
      (setContractionCoefficient inV s).core.vs = s.core.vs ∧
      (setContractionCoefficient inV s).core.vh = s.core.vh ∧
      (setContractionCoefficient inV s).core.vg = s.core.vg ∧
      (setContractionCoefficient inV s).lastExecResults =
        s.lastExecResults) ∧
    ((setExpansionCoefficient inV s).core.configExpansionCoefficient =
        inV ∧
      (setExpansionCoefficient inV s).core.size = s.core.size ∧
      (setExpansionCoefficient inV s).core.configMaxIterations =
        s.core.configMaxIterations ∧
      (setExpansionCoefficient inV s).core.configReflectionCoefficient =
        s.core.configReflectionCoefficient ∧
      (setExpansionCoefficient inV s).core.configContractionCoefficient =
        s.core.configContractionCoefficient ∧
      (setExpansionCoefficient inV s).core.v = s.core.v ∧
      (setExpansionCoefficient inV s).core.f = s.core.f ∧
      (setExpansionCoefficient inV s).core.evalCount = s.core.evalCount ∧
      (setExpansionCoefficient inV s).core.vs = s.core.vs ∧
      (setExpansionCoefficient inV s).core.vh = s.core.vh ∧
      (setExpansionCoefficient inV s).core.vg = s.core.vg ∧
      (setExpansionCoefficient inV s).lastExecResults =
        s.lastExecResults) := by
  refine ⟨?_, ?_, ?_, ?_⟩ <;>
    exact ⟨rfl, rfl, rfl, rfl, rfl, rfl, rfl, rfl, rfl, rfl, rfl, rfl⟩

/-- C10: for dimension `N ≥ 1`, a start vector of length at least `N`, and
a length-preserving constraint, every container access of `exec` is in
bounds: the prologue establishes the access bounds `WF` (simplex of `N + 1`
rows of length `N`, value table of length `N + 1`, role indices `≤ N`), one
iteration preserves them, the final state still satisfies them, every index
into the start vector is in bounds, and in natural-number arithmetic the
coordinate-loop bound satisfies `(N - 1) + 1 = N`, so the `j ≤ size - 1`
loops of the source range exactly over the `N` coordinates. -/
theorem c10 (F : List α → α) (C : Option (List α → List α)) (sq : α → α)
    (start : List α) (tolerancee scale : α) (s : State α)
    (hsize : 1 ≤ s.core.size) (hstart : s.core.size ≤ start.length)
    (hC : ∀ x, (applyC C x).length = x.length) :
    WF (execInitState F C sq start scale s.core) ∧
    (∀ t : Core α, WF t → WF (bodyState F C sq tolerancee t)) ∧
    WF (execCore F C sq start tolerancee scale s.core).1 ∧
    (∀ j < s.core.size, j < start.length) ∧
    s.core.size - 1 + 1 = s.core.size := by
  have hinit := execInitState_WF F C sq start scale s.core hC
  have hbody : ∀ t : Core α, WF t → WF (bodyState F C sq tolerancee t) :=
    fun t ht => bodyState_WF F C sq tolerancee hC ht
  have hloop : WF (execLoop F C sq tolerancee
      (execInitState F C sq start scale s.core).configMaxIterations 0
      (execInitState F C sq start scale s.core)).2.1 :=
    execLoop_preserve F C sq tolerancee WF hbody _ _ _ hinit
  refine ⟨hinit, hbody, ?_, fun j hj => lt_of_lt_of_le hj hstart, by omega⟩
  show WF (doEvaluate F
    (doIndexes (execLoop F C sq tolerancee
      (execInitState F C sq start scale s.core).configMaxIterations 0
      (execInitState F C sq start scale s.core)).2.1)
    ((doIndexes (execLoop F C sq tolerancee
      (execInitState F C sq start scale s.core).configMaxIterations 0
      (execInitState F C sq start scale s.core)).2.1).v.getD
      (doIndexes (execLoop F C sq tolerancee
        (execInitState F C sq start scale s.core).configMaxIterations 0
        (execInitState F C sq start scale s.core)).2.1).vs [])).2
  exact doIndexes_WF hloop

/-- Witness for C10 at a one-dimensional run with no constraint. -/
theorem c10_witness :
    WF (execInitState constZeroF none idsq [0] 1
      (construct 1 : State ℚ).core) ∧
    (∀ t : Core ℚ, WF t → WF (bodyState constZeroF none idsq (1/1000) t)) ∧
    WF (execCore constZeroF none idsq [0] (1/1000) 1
      (construct 1 : State ℚ).core).1 ∧
    (∀ j < (construct 1 : State ℚ).core.size, j < ([(0 : ℚ)] : List ℚ).length) ∧
    (construct 1 : State ℚ).core.size - 1 + 1 =
      (construct 1 : State ℚ).core.size :=
  c10 constZeroF none idsq [0] (1/1000) 1 (construct 1)
    (by decide) (by decide) (fun x => rfl)


end NelderMead
